import Mathlib

/-!
Shallow embedding of the chargeback attribution/aggregation engine of
`dt-chargeback-back` (files `chargeback.py` and `chargeback_logic.py`).

Python floats are modelled as exact rationals (`ℚ`); "within floating point
tolerance" statements become exact equalities.  Python dicts of usage values
are modelled as association lists with a `0`-defaulting lookup, mirroring
`dict.get(key, 0.0)`.  SQLAlchemy ORM objects are modelled as plain
structures; object-identity membership tests (`host in is_obj.hosts`,
`dg in charged_dgs`) are modelled by `dt_id` membership and structural
equality respectively, which coincide with the source's behaviour because
`dt_id` is unique per entity kind and DG rows are unique per name.
-/

namespace Chargeback

/-- The seven usage types of `ChargebackReport.usage_types`
(`3rd_party_monitor` is spelled `third_party_monitor` here). -/
inductive UType where
  | fullstack
  | infra
  | rum
  | rum_with_sr
  | browser_monitor
  | http_monitor
  | third_party_monitor
deriving DecidableEq, Repr

/-- A per-metric usage record: one rational per usage type.  Python usage
dicts carry only the keys relevant to an entity kind; absent keys are
modelled as `0`, which is sound because the aggregation loops only add the
present keys and adding `0` is a no-op. -/
structure Usage where
  fullstack : ℚ
  infra : ℚ
  rum : ℚ
  rum_with_sr : ℚ
  browser_monitor : ℚ
  http_monitor : ℚ
  third_party_monitor : ℚ
deriving DecidableEq, Repr

def Usage.zero : Usage := ⟨0, 0, 0, 0, 0, 0, 0⟩

/-- Projection of a usage record at a usage type. -/
def Usage.get (u : Usage) : UType → ℚ
  | .fullstack => u.fullstack
  | .infra => u.infra
  | .rum => u.rum
  | .rum_with_sr => u.rum_with_sr
  | .browser_monitor => u.browser_monitor
  | .http_monitor => u.http_monitor
  | .third_party_monitor => u.third_party_monitor

/-- Pointwise addition, modelling `totals[usage_type] += value` over all keys. -/
def Usage.add (a b : Usage) : Usage :=
  ⟨a.fullstack + b.fullstack, a.infra + b.infra, a.rum + b.rum,
   a.rum_with_sr + b.rum_with_sr, a.browser_monitor + b.browser_monitor,
   a.http_monitor + b.http_monitor, a.third_party_monitor + b.third_party_monitor⟩

/-- A usage dict holding a single key, as built by the unassigned-entity
handler (`'usage': {usage_type: value['value']}`). -/
def Usage.single (m : UType) (v : ℚ) : Usage :=
  match m with
  | .fullstack => { Usage.zero with fullstack := v }
  | .infra => { Usage.zero with infra := v }
  | .rum => { Usage.zero with rum := v }
  | .rum_with_sr => { Usage.zero with rum_with_sr := v }
  | .browser_monitor => { Usage.zero with browser_monitor := v }
  | .http_monitor => { Usage.zero with http_monitor := v }
  | .third_party_monitor => { Usage.zero with third_party_monitor := v }

/-- Topology Information System (`models.IS`): name, managed flag, and the
`dt_id`s of its member hosts/applications/synthetics (the many-to-many
relationships `IS.hosts`, `IS.applications`, `IS.synthetics`). -/
structure ISys where
  id : Nat
  name : String
  managed : Bool
  hostIds : List String
  appIds : List String
  synIds : List String
deriving DecidableEq, Repr

/-- Topology DG (`models.DG`): name and its information systems. -/
structure DGT where
  id : Nat
  name : String
  iss : List ISys
deriving DecidableEq, Repr

/-- Topology host (`models.Host`), with its many-to-many DG memberships. -/
structure Host where
  id : Nat
  dt_id : String
  name : String
  managed : Bool
  cloud : Bool
  monitoring_mode : String
  dgs : List DGT
deriving DecidableEq, Repr

/-- Topology application (`models.Application`), with its DG and IS
memberships. -/
structure App where
  id : Nat
  dt_id : String
  name : String
  dgs : List DGT
  information_systems : List ISys
deriving DecidableEq, Repr

/-- Topology synthetic monitor (`models.Synthetic`). -/
structure Syn where
  id : Nat
  dt_id : String
  name : String
  dgs : List DGT
  information_systems : List ISys
deriving DecidableEq, Repr

/-- `chargeback_logic.host_is_billable`: billable iff the monitoring mode is
`INFRASTRUCTURE` or `FULL_STACK`. -/
def host_is_billable (h : Host) : Bool :=
  h.monitoring_mode == "INFRASTRUCTURE" || h.monitoring_mode == "FULL_STACK"

/-- `chargeback_logic.app_is_billable`: not billable iff some member IS is
managed. -/
def app_is_billable (a : App) : Bool :=
  !(a.information_systems.any (fun i => i.managed))

/-- `chargeback_logic.synthetic_is_billable`: not billable iff some member IS
is managed. -/
def synthetic_is_billable (s : Syn) : Bool :=
  !(s.information_systems.any (fun i => i.managed))

/-- A report entry (the `host_data` / `app_data` / `synthetic_data` dicts of
`chargeback.py`).  `cloud` is only set for hosts in the source; application
and synthetic entries never read it, so it is `false` there. -/
structure Entry where
  id : Nat
  dt_id : String
  name : String
  usage : Usage
  managed : Bool
  cloud : Bool
  billed : Bool
  tagged_dgs : List String
deriving DecidableEq, Repr

/-- Report IS node (`_create_is_report_structure`): per-kind entry buckets and
the usage totals filled in by `_calculate_totals`. -/
structure ISNode where
  id : Nat
  name : String
  managed : Bool
  hosts : List Entry
  applications : List Entry
  synthetics : List Entry
  usage : Usage
deriving DecidableEq, Repr

/-- A totals record (`{'usage': ..., 'entities': ..., 'managed_hosts': ...}`). -/
structure Totals where
  usage : Usage
  hosts : Nat
  applications : Nat
  synthetics : Nat
  managed_hosts : Nat
deriving DecidableEq, Repr

def Totals.zero : Totals := ⟨Usage.zero, 0, 0, 0, 0⟩

def Totals.add (a b : Totals) : Totals :=
  ⟨Usage.add a.usage b.usage, a.hosts + b.hosts,
   a.applications + b.applications, a.synthetics + b.synthetics,
   a.managed_hosts + b.managed_hosts⟩

/-- Report DG node (`_create_dg_report_structure`): information systems, the
per-kind `unassigned_entities` buckets, and the DG totals. -/
structure DGNode where
  id : Nat
  name : String
  information_systems : List ISNode
  ua_hosts : List Entry
  ua_applications : List Entry
  ua_synthetics : List Entry
  totals : Totals
deriving DecidableEq, Repr

/-- The report root: DG nodes plus the main and unassigned totals. -/
structure Report where
  dgs : List DGNode
  totals : Totals
  unassigned_totals : Totals
deriving DecidableEq, Repr

/-- `_create_is_report_structure`. -/
def createISNode (i : ISys) : ISNode :=
  ⟨i.id, i.name, i.managed, [], [], [], Usage.zero⟩

/-- `_create_dg_report_structure`. -/
def createDGNode (d : DGT) : DGNode :=
  ⟨d.id, d.name, [], [], [], [], Totals.zero⟩

/-- Entity kinds (`entity_types = ['hosts', 'applications', 'synthetics']`). -/
inductive EKind where
  | hosts
  | applications
  | synthetics
deriving DecidableEq, Repr

def ISNode.bucket (n : ISNode) : EKind → List Entry
  | .hosts => n.hosts
  | .applications => n.applications
  | .synthetics => n.synthetics

def ISNode.setBucket (n : ISNode) : EKind → List Entry → ISNode
  | .hosts, l => { n with hosts := l }
  | .applications, l => { n with applications := l }
  | .synthetics, l => { n with synthetics := l }

def DGNode.uaBucket (d : DGNode) : EKind → List Entry
  | .hosts => d.ua_hosts
  | .applications => d.ua_applications
  | .synthetics => d.ua_synthetics

def DGNode.setUaBucket (d : DGNode) : EKind → List Entry → DGNode
  | .hosts, l => { d with ua_hosts := l }
  | .applications, l => { d with ua_applications := l }
  | .synthetics, l => { d with ua_synthetics := l }

/-- The membership id list of a topology IS for an entity kind, used for the
`host in is_obj.hosts` (etc.) membership tests. -/
def ISys.memberIds (i : ISys) : EKind → List String
  | .hosts => i.hostIds
  | .applications => i.appIds
  | .synthetics => i.synIds

/-- The usage maps collected by `_collect_usage_data`: one dict per usage
type, modelled as association lists keyed by `dt_id`. -/
structure UsageData where
  fullstack : List (String × ℚ)
  infra : List (String × ℚ)
  rum : List (String × ℚ)
  rum_with_sr : List (String × ℚ)
  browser_monitor : List (String × ℚ)
  http_monitor : List (String × ℚ)
  third_party_monitor : List (String × ℚ)
deriving DecidableEq, Repr

/-- `usage_data[k].get(dt_id, 0.0)`. -/
def lookupQ (m : List (String × ℚ)) (k : String) : ℚ :=
  match m.find? (fun p => p.1 == k) with
  | some p => p.2
  | none => 0

/-- Replace the first element satisfying `p` by its image under `f`; used to
model "find the index by name, then mutate the element at that index". -/
def updateFirst (p : α → Bool) (f : α → α) : List α → List α
  | [] => []
  | x :: xs => if p x then f x :: xs else x :: updateFirst p f xs

/-- The per-bucket dedup guard: `if any(d['dt_id'] == e['dt_id'] ...): continue
else: append(e)`. -/
def addIfNew (e : Entry) (l : List Entry) : List Entry :=
  if l.any (fun d => d.dt_id == e.dt_id) then l else l ++ [e]

/-- The placement block inside a DG node shared by `_process_host`,
`_process_application` and `_process_synthetic`: look for a topology IS of
`dg` containing the entity; append the entry to the matching IS bucket
(creating the IS node if missing) or to the DG's unassigned bucket, with the
per-bucket dedup guard. -/
def placeInDGNode (dg : DGT) (k : EKind) (e : Entry) (node : DGNode) : DGNode :=
  match dg.iss.find? (fun i => (i.memberIds k).contains e.dt_id) with
  | some isTop =>
    if node.information_systems.any (fun n => n.name == isTop.name) then
      let iss := updateFirst (fun n => n.name == isTop.name)
        (fun n => n.setBucket k (addIfNew e (n.bucket k))) node.information_systems
      { node with information_systems := iss }
    else
      let iss := node.information_systems ++ [(createISNode isTop).setBucket k (addIfNew e [])]
      { node with information_systems := iss }
  | none => node.setUaBucket k (addIfNew e (node.uaBucket k))

/-- Place an entry into the report node of `dg` (found by name); if no node of
that name exists the resource is skipped for this DG (`if dg_index is None:
continue`). -/
def placeEntity (k : EKind) (dg : DGT) (e : Entry) (r : Report) : Report :=
  if r.dgs.any (fun n => n.name == dg.name) then
    { r with dgs := updateFirst (fun n => n.name == dg.name) (placeInDGNode dg k e) r.dgs }
  else r

/-- The "ensure report contains all relevant DGs" loop of the processors. -/
def ensureDGs (dgl : List DGT) (r : Report) : Report :=
  dgl.foldl
    (fun rep dg =>
      if rep.dgs.any (fun n => n.name == dg.name) then rep
      else { rep with dgs := rep.dgs ++ [createDGNode dg] })
    r

/-- `self.processed_entities.add(x)` on the set modelled as a list. -/
def insertProcessed (s : List String) (x : String) : List String :=
  if s.contains x then s else s ++ [x]

/-- The mutable state of a `ChargebackReport` run: the report under
construction plus the `processed_entities` dedup set. -/
structure RState where
  report : Report
  processed : List String
deriving DecidableEq, Repr

/-- Configuration switches of `ChargebackReport.__init__` that the engine
reads. -/
structure Config where
  include_non_charged_entities_in_dg : Bool
deriving DecidableEq, Repr

/-- `_process_host`'s charged-DG computation: DIGIT C wins if tagged; a
non-billable host is also redirected to the DIGIT C member if present,
otherwise to the first tagged DG (`processed_dgs[0]`; `List.take 1` encodes
the `IndexError` on an empty list as the empty result). -/
def hostChargedDGs (h : Host) : List DGT :=
  if h.dgs.any (fun dg => dg.name == "DIGIT C")
      || !(h.dgs.any (fun _ => host_is_billable h)) then
    match h.dgs.find? (fun dg => dg.name == "DIGIT C") with
    | some dg => [dg]
    | none => h.dgs.take 1
  else h.dgs

/-- `_process_application`'s charged-DG computation (DIGIT C beats the rest;
billability plays no role here). -/
def appChargedDGs (a : App) : List DGT :=
  if a.dgs.any (fun dg => dg.name == "DIGIT C") then
    match a.dgs.find? (fun dg => dg.name == "DIGIT C") with
    | some dg => [dg]
    | none => []
  else a.dgs

/-- `_process_synthetic`'s charged-DG computation, identical in shape to the
application rule. -/
def synChargedDGs (s : Syn) : List DGT :=
  if s.dgs.any (fun dg => dg.name == "DIGIT C") then
    match s.dgs.find? (fun dg => dg.name == "DIGIT C") with
    | some dg => [dg]
    | none => []
  else s.dgs

/-- The host usage dict built in the dg loop of `_process_host` ("Always set
actual usage values"): fullstack raw split over the charged DGs when
positive; infra split only when positive and fullstack raw is zero. -/
def hostUsage (ud : UsageData) (h : Host) (nCharged : Nat) : Usage :=
  let fs := lookupQ ud.fullstack h.dt_id
  let inf := lookupQ ud.infra h.dt_id
  { Usage.zero with
    fullstack := if fs > 0 then fs / (nCharged : ℚ) else 0
    infra := if inf > 0 ∧ fs = 0 then inf / (nCharged : ℚ) else 0 }

/-- The `host_data` dict for one DG of the loop: the usage is the same for
every processed DG, only `billed` depends on membership in the charged set. -/
def hostEntry (ud : UsageData) (h : Host) (dg : DGT) : Entry :=
  { id := h.id, dt_id := h.dt_id, name := h.name
    usage := hostUsage ud h (hostChargedDGs h).length
    managed := h.managed, cloud := h.cloud
    billed := host_is_billable h && decide (dg ∈ hostChargedDGs h)
    tagged_dgs := h.dgs.map (fun d => d.name) }

/-- The `app_data` dict for one DG: charged DGs carry the split usage,
non-charged DGs a zero-usage record; `billed` is billability alone. -/
def appEntry (ud : UsageData) (a : App) (dg : DGT) : Entry :=
  let charged := appChargedDGs a
  let rum := lookupQ ud.rum a.dt_id
  let rumsr := lookupQ ud.rum_with_sr a.dt_id
  { id := a.id, dt_id := a.dt_id, name := a.name
    usage :=
      if dg ∈ charged then
        { Usage.zero with
          rum := if rum > 0 then rum / (charged.length : ℚ) else 0
          rum_with_sr := if rumsr > 0 then rumsr / (charged.length : ℚ) else 0 }
      else Usage.zero
    managed := false, cloud := false
    billed := app_is_billable a
    tagged_dgs := a.dgs.map (fun d => d.name) }

/-- The `synthetic_data` dict for one DG. -/
def synEntry (ud : UsageData) (s : Syn) (dg : DGT) : Entry :=
  let charged := synChargedDGs s
  let bu := lookupQ ud.browser_monitor s.dt_id
  let hu := lookupQ ud.http_monitor s.dt_id
  let tu := lookupQ ud.third_party_monitor s.dt_id
  { id := s.id, dt_id := s.dt_id, name := s.name
    usage :=
      if dg ∈ charged then
        { Usage.zero with
          browser_monitor := if bu > 0 then bu / (charged.length : ℚ) else 0
          http_monitor := if hu > 0 then hu / (charged.length : ℚ) else 0
          third_party_monitor := if tu > 0 then tu / (charged.length : ℚ) else 0 }
      else Usage.zero
    managed := false, cloud := false
    billed := synthetic_is_billable s
    tagged_dgs := s.dgs.map (fun d => d.name) }

/-- The per-DG placement loop shared by the three processors ("Process each
DG the entity belongs to"): fold the placement over the processed DG list,
with the entry rebuilt for each DG. -/
def placeFold (k : EKind) (mk : DGT → Entry) (l : List DGT) (r : Report) : Report :=
  l.foldl (fun rep dg => placeEntity k dg (mk dg) rep) r

/-- `_process_host`: charged-DG resolution, DG-node creation, flag-dependent
reduction of the processed set, per-DG placement, and the final
`processed_entities.add`.  Unlike the other two processors it has no
early-exit on `processed_entities`. -/
def processHost (cfg : Config) (ud : UsageData) (h : Host) (st : RState) : RState :=
  let charged := hostChargedDGs h
  let r1 := ensureDGs h.dgs st.report
  let pdgs := if cfg.include_non_charged_entities_in_dg then h.dgs else charged
  let r2 := placeFold EKind.hosts (hostEntry ud h) pdgs r1
  { report := r2, processed := insertProcessed st.processed h.dt_id }

/-- `_process_application`, including its `processed_entities` early exit. -/
def processApplication (cfg : Config) (ud : UsageData) (a : App) (st : RState) : RState :=
  if st.processed.contains a.dt_id then st
  else
    let charged := appChargedDGs a
    let r1 := ensureDGs a.dgs st.report
    let pdgs := if cfg.include_non_charged_entities_in_dg then a.dgs else charged
    let r2 := placeFold EKind.applications (appEntry ud a) pdgs r1
    { report := r2, processed := insertProcessed st.processed a.dt_id }

/-- `_process_synthetic`, including its `processed_entities` early exit. -/
def processSynthetic (cfg : Config) (ud : UsageData) (s : Syn) (st : RState) : RState :=
  if st.processed.contains s.dt_id then st
  else
    let charged := synChargedDGs s
    let r1 := ensureDGs s.dgs st.report
    let pdgs := if cfg.include_non_charged_entities_in_dg then s.dgs else charged
    let r2 := placeFold EKind.synthetics (synEntry ud s) pdgs r1
    { report := r2, processed := insertProcessed st.processed s.dt_id }

/-- A monitored resource, used to state claims uniformly over the three
entity kinds dispatched by `generate_report`'s
`getattr(self, f'_process_{entity_type[:-1]}')`. -/
inductive Resource where
  | host (h : Host)
  | app (a : App)
  | syn (s : Syn)
deriving DecidableEq, Repr

def Resource.dgs : Resource → List DGT
  | .host h => h.dgs
  | .app a => a.dgs
  | .syn s => s.dgs

def Resource.dt_id : Resource → String
  | .host h => h.dt_id
  | .app a => a.dt_id
  | .syn s => s.dt_id

def Resource.kind : Resource → EKind
  | .host _ => .hosts
  | .app _ => .applications
  | .syn _ => .synthetics

/-- The billability rule applied to a resource of each kind. -/
def Resource.billable : Resource → Bool
  | .host h => host_is_billable h
  | .app a => app_is_billable a
  | .syn s => synthetic_is_billable s

/-- The charged-DG resolution of the matching processor. -/
def Resource.charged : Resource → List DGT
  | .host h => hostChargedDGs h
  | .app a => appChargedDGs a
  | .syn s => synChargedDGs s

/-- The entry the matching processor builds for a given DG. -/
def resourceEntry (ud : UsageData) : Resource → DGT → Entry
  | .host h, dg => hostEntry ud h dg
  | .app a, dg => appEntry ud a dg
  | .syn s, dg => synEntry ud s dg

/-- The entity-kind dispatch of `generate_report`. -/
def processResource (cfg : Config) (ud : UsageData) : Resource → RState → RState
  | .host h, st => processHost cfg ud h st
  | .app a, st => processApplication cfg ud a st
  | .syn s, st => processSynthetic cfg ud s st

/-- `_determine_entity_type` restricted to the seven known usage types. -/
def determineEntityType : UType → EKind
  | .fullstack => .hosts
  | .infra => .hosts
  | .rum => .applications
  | .rum_with_sr => .applications
  | .browser_monitor => .synthetics
  | .http_monitor => .synthetics
  | .third_party_monitor => .synthetics

/-- One record of `_collect_unassigned_usage_data`: `dt_id`, value, name. -/
structure URec where
  dt_id : String
  value : ℚ
  uname : String
deriving DecidableEq, Repr

/-- The entity dict built by the unassigned handler of `generate_report`
(no `id`/`managed`/`cloud` keys in the source; the totals pass reads
`managed` with default `False`, so those fields are fixed accordingly). -/
def unassignedEntry (m : UType) (rec : URec) : Entry :=
  { id := 0, dt_id := rec.dt_id, name := rec.uname
    usage := Usage.single m rec.value
    managed := false, cloud := false, billed := true, tagged_dgs := [] }

/-- One step of the unassigned handler loop: skip identities already in
`processed_entities`, otherwise append the entry to the `Unassigned` DG
bucket of the usage type's entity kind and record the identity. -/
def unassignedStep (m : UType) (q : DGNode × List String) (rec : URec) :
    DGNode × List String :=
  if q.2.contains rec.dt_id then q
  else
    (q.1.setUaBucket (determineEntityType m)
      (q.1.uaBucket (determineEntityType m) ++ [unassignedEntry m rec]),
     insertProcessed q.2 rec.dt_id)

/-- The unassigned-entity block of `generate_report` (lines 120-172): build
the `Unassigned` DG from the unassigned usage collections, guarded by the
process-wide `processed_entities` set, then append it to the report. -/
def processUnassigned (data : List (UType × List URec)) (st : RState) : RState :=
  let init : DGNode := ⟨0, "Unassigned", [], [], [], [], Totals.zero⟩
  let pair := data.foldl
    (fun (q : DGNode × List String) p => p.2.foldl (unassignedStep p.1) q)
    (init, st.processed)
  { report := { st.report with dgs := st.report.dgs ++ [pair.1] }
    processed := pair.2 }

/-- The billed-only usage accumulation loops of `_calculate_totals`
(`if entry.get('billed', False): for t, v in entry['usage'].items(): acc[t] += v`). -/
def addEntries (l : List Entry) (acc : Usage) : Usage :=
  l.foldl (fun a e => if e.billed then Usage.add a e.usage else a) acc

/-- The managed counting loop (`if host.get('managed', False): count += 1`),
applied to host buckets only and independent of `billed`. -/
def countManaged (l : List Entry) : Nat :=
  l.foldl (fun c e => if e.managed then c + 1 else c) 0

/-- The IS totals of one IS node: billed usage of hosts, then applications,
then synthetics. -/
def calcISUsage (isn : ISNode) : Usage :=
  addEntries isn.synthetics (addEntries isn.applications (addEntries isn.hosts Usage.zero))

/-- One step of the per-IS loop of `_calculate_totals`: add the IS usage
(billed entries only) and the unconditional entity counts into the DG
accumulator, plus the managed-host count over the IS host bucket. -/
def isTotalsStep (acc : Totals) (isn : ISNode) : Totals :=
  { usage := Usage.add acc.usage (calcISUsage isn)
    hosts := acc.hosts + isn.hosts.length
    applications := acc.applications + isn.applications.length
    synthetics := acc.synthetics + isn.synthetics.length
    managed_hosts := acc.managed_hosts + countManaged isn.hosts }

/-- The per-DG body of `_calculate_totals`: store each IS node's usage
totals, accumulate DG usage (billed entries of IS buckets and of the
unassigned buckets), count entities per kind regardless of `billed`, and
count managed hosts.  The source's `unassigned_usage` accumulator is dead
(never stored) and is omitted. -/
def calcDGNode (dg : DGNode) : DGNode :=
  let t1 := dg.information_systems.foldl isTotalsStep Totals.zero
  let uaUsage := addEntries dg.ua_synthetics
    (addEntries dg.ua_applications (addEntries dg.ua_hosts t1.usage))
  let t2 : Totals :=
    { usage := uaUsage
      hosts := t1.hosts + dg.ua_hosts.length
      applications := t1.applications + dg.ua_applications.length
      synthetics := t1.synthetics + dg.ua_synthetics.length
      managed_hosts := t1.managed_hosts + countManaged dg.ua_hosts }
  { dg with
    information_systems := dg.information_systems.map
      (fun isn => { isn with usage := calcISUsage isn })
    totals := t2 }

/-- The totals routing loop of `_calculate_totals`: DGs named `Unassigned`
feed `unassigned_totals`, all others feed the main `totals`. -/
def routeTotals (dgs : List DGNode) (acc : Totals × Totals) : Totals × Totals :=
  dgs.foldl
    (fun p d =>
      if d.name == "Unassigned" then (p.1, Totals.add p.2 d.totals)
      else (Totals.add p.1 d.totals, p.2))
    acc

/-- `_calculate_totals`: reset the report-level totals, compute every DG's
totals (storing IS usage on the way), and route DG totals into the main or
unassigned report totals by DG name. -/
def calculate_totals (r : Report) : Report :=
  let dgs2 := r.dgs.map calcDGNode
  let acc := routeTotals dgs2 (Totals.zero, Totals.zero)
  { dgs := dgs2, totals := acc.1, unassigned_totals := acc.2 }

/-! Observation helpers used to state the claims. -/

/-- `e` occurs somewhere in the kind-`k` buckets of DG node `d` (either in an
IS bucket or in the unassigned-in-DG bucket). -/
def entryInNode (d : DGNode) (k : EKind) (e : Entry) : Prop :=
  e ∈ d.uaBucket k ∨ ∃ isn ∈ d.information_systems, e ∈ isn.bucket k

/-- `e` occurs in the kind-`k` buckets of some DG node named `n`. -/
def entryUnder (r : Report) (n : String) (k : EKind) (e : Entry) : Prop :=
  ∃ d ∈ r.dgs, d.name = n ∧ entryInNode d k e

/-- Some kind-`k` bucket of `d` holds an entry with identity `x`. -/
def nodeHasId (d : DGNode) (k : EKind) (x : String) : Bool :=
  (d.uaBucket k).any (fun e => e.dt_id == x) ||
    d.information_systems.any (fun isn => (isn.bucket k).any (fun e => e.dt_id == x))

/-- Some bucket of the report (any kind, any DG) holds identity `x`. -/
def reportHasId (r : Report) (x : String) : Bool :=
  r.dgs.any (fun d =>
    nodeHasId d .hosts x || nodeHasId d .applications x || nodeHasId d .synthetics x)

/-- A report node named `n` exists. -/
def nodeExists (r : Report) (n : String) : Bool :=
  r.dgs.any (fun d => d.name == n)

/-- No entry with identity `x` sits in the kind-`k` buckets of nodes named
`n`. -/
def noIdUnder (r : Report) (n : String) (k : EKind) (x : String) : Prop :=
  ∀ e, entryUnder r n k e → e.dt_id ≠ x

/-- Specification-side billed usage of a bucket for one metric: the sum of
the distributed quantities of the entries whose `billed` flag is true. -/
def billedSum (l : List Entry) (t : UType) : ℚ :=
  ((l.filter (fun e => e.billed)).map (fun e => e.usage.get t)).sum

/-- Each identity occurs at most once in the bucket. -/
def nodupIds : List Entry → Bool
  | [] => true
  | e :: t => !(t.any (fun d => d.dt_id == e.dt_id)) && nodupIds t

/-- Deduplication holds in every bucket of an IS node. -/
def isNodeDedup (isn : ISNode) : Bool :=
  nodupIds isn.hosts && nodupIds isn.applications && nodupIds isn.synthetics

/-- Deduplication holds in every bucket of a DG node. -/
def dgNodeDedup (d : DGNode) : Bool :=
  nodupIds d.ua_hosts && nodupIds d.ua_applications && nodupIds d.ua_synthetics &&
    d.information_systems.all isNodeDedup

/-- Deduplication holds in every bucket of the report tree. -/
def reportDedup (r : Report) : Bool :=
  r.dgs.all dgNodeDedup

/-- The usage map consulted for a usage type. -/
def UsageData.umap (ud : UsageData) : UType → List (String × ℚ)
  | .fullstack => ud.fullstack
  | .infra => ud.infra
  | .rum => ud.rum
  | .rum_with_sr => ud.rum_with_sr
  | .browser_monitor => ud.browser_monitor
  | .http_monitor => ud.http_monitor
  | .third_party_monitor => ud.third_party_monitor

/-- The raw usage quantity of a resource for a usage type. -/
def rawOf (ud : UsageData) (res : Resource) (m : UType) : ℚ :=
  lookupQ (ud.umap m) res.dt_id

/-- A metric is applicable to a resource when it is one of the metric kinds
of the resource's kind; for hosts, tier mutual exclusivity is applied first
(§4.3 of the spec), so `infra` is applicable only when the raw fullstack
quantity is zero. -/
def metricApplicable (ud : UsageData) (res : Resource) (m : UType) : Prop :=
  match res with
  | .host h => m = .fullstack ∨ (m = .infra ∧ lookupQ ud.fullstack h.dt_id = 0)
  | .app _ => m = .rum ∨ m = .rum_with_sr
  | .syn _ => m = .browser_monitor ∨ m = .http_monitor ∨ m = .third_party_monitor

instance (d : DGNode) (k : EKind) (e : Entry) : Decidable (entryInNode d k e) := by
  unfold entryInNode; exact inferInstance

instance (r : Report) (n : String) (k : EKind) (e : Entry) :
    Decidable (entryUnder r n k e) := by
  unfold entryUnder; exact inferInstance

/-- Within one DG node, the very bucket the placement block targets for DG
`dg` and identity `x` already holds `x`. -/
def nodeTargetHas (k : EKind) (dg : DGT) (x : String) (node : DGNode) : Prop :=
  match dg.iss.find? (fun i => (i.memberIds k).contains x) with
  | some isTop =>
    match node.information_systems.find? (fun n => n.name == isTop.name) with
    | some isn => (isn.bucket k).any (fun e => e.dt_id == x) = true
    | none => False
  | none => (node.uaBucket k).any (fun e => e.dt_id == x) = true

/-- The state of the very bucket the placement block of the processors
targets for DG `dg` and identity `x`: the first report node named `dg.name`
holds `x` in the bucket selected by the topology IS lookup.  This is the
post-condition of a placement and the condition under which a repeated
placement is a no-op. -/
def targetHas (k : EKind) (dg : DGT) (x : String) (r : Report) : Prop :=
  match r.dgs.find? (fun d => d.name == dg.name) with
  | none => False
  | some node => nodeTargetHas k dg x node

/-! Concrete inputs used by counterexamples and witnesses. -/

def emptyReport : Report := ⟨[], Totals.zero, Totals.zero⟩

def st0 : RState := ⟨emptyReport, []⟩

def cfgOff : Config := ⟨false⟩

def cfgOn : Config := ⟨true⟩

def dgAlpha : DGT := ⟨1, "ALPHA", []⟩

def dgBeta : DGT := ⟨2, "BETA", []⟩

def dgDigitC : DGT := ⟨3, "DIGIT C", []⟩

/-- A managed information system with one application and one synthetic. -/
def isManagedEx : ISys := ⟨10, "CORP MANAGED", true, [], ["APP-1"], ["SYN-1"]⟩

def dgAgri : DGT := ⟨4, "AGRI", [isManagedEx]⟩

/-- An application belonging only to the managed IS of DG `AGRI`. -/
def exApp1 : App := ⟨5, "APP-1", "app one", [dgAgri], [isManagedEx]⟩

/-- A host that is monitored in neither tier, hence not billable. -/
def exHostOff : Host := ⟨6, "H-OFF", "host off", false, false, "OFF", [dgAlpha]⟩

/-- A FULL_STACK host used for the tier-exclusivity counterexample. -/
def exHostFs : Host := ⟨7, "H-FS", "host fs", false, false, "FULL_STACK", [dgAlpha]⟩

/-- A FULL_STACK host tagged to the fallback DG and to `ALPHA`. -/
def exHostC4 : Host := ⟨8, "H-C4", "host c4", false, false, "FULL_STACK", [dgDigitC, dgAlpha]⟩

/-- An INFRASTRUCTURE host tagged to the fallback DG and to `BETA`. -/
def exHostC8 : Host := ⟨9, "H-C8", "host c8", false, false, "INFRASTRUCTURE", [dgDigitC, dgBeta]⟩

def udEmpty : UsageData := ⟨[], [], [], [], [], [], []⟩

/-- An application tagged to the fallback DG and to `ALPHA`. -/
def exApp2 : App := ⟨13, "APP-2", "app two", [dgDigitC, dgAlpha], []⟩

/-- A FULL_STACK host with one tagged DG, used as a generic witness input. -/
def exHostW : Host := ⟨11, "H-W", "host w", false, false, "FULL_STACK", [dgAlpha]⟩

/-- A billable FULL_STACK host tagged to `ALPHA` and `BETA`. -/
def exHostC2 : Host := ⟨12, "H-C2", "host c2", false, false, "FULL_STACK", [dgAlpha, dgBeta]⟩

def udC2 : UsageData := ⟨[("H-C2", 100)], [], [], [], [], [], []⟩

def udC1 : UsageData := ⟨[], [], [("APP-1", 100)], [], [], [], []⟩

def udC5 : UsageData := ⟨[], [("H-FS", 5)], [], [], [], [], []⟩

def udC4 : UsageData := ⟨[("H-C4", 100)], [], [], [], [], [], []⟩

def udC8 : UsageData := ⟨[], [("H-C8", 60)], [], [], [], [], []⟩

/-- A billed application entry used in totals witnesses. -/
def entryB : Entry :=
  ⟨20, "E-B", "billed entry", { Usage.zero with rum := 4 }, false, false, true, []⟩

/-- An unbilled managed host entry used in totals witnesses. -/
def entryN : Entry :=
  ⟨21, "E-N", "unbilled entry", { Usage.zero with rum := 7 }, true, false, false, []⟩

/-- A concrete IS node with one host entry and one application entry. -/
def isNodeEx : ISNode := ⟨30, "IS-EX", false, [entryN], [entryB], [], Usage.zero⟩

/-- A concrete DG node with one IS node and one unassigned host entry. -/
def dgNodeEx : DGNode := ⟨40, "DG-EX", [isNodeEx], [entryN], [], [], Totals.zero⟩

/-- A concrete one-DG report used in totals witnesses. -/
def rEx : Report := ⟨[dgNodeEx], Totals.zero, Totals.zero⟩

/-! ### Lemmas about the list helpers -/

theorem updateFirst_of_none {α} {p : α → Bool} {f : α → α} {l : List α}
    (h : ∀ x ∈ l, p x = false) : updateFirst p f l = l := by
  induction l with
  | nil => rfl
  | cons x xs ih =>
    simp only [updateFirst, h x (List.mem_cons_self x xs), Bool.false_eq_true, if_false]
    rw [ih fun y hy => h y (List.mem_cons_of_mem x hy)]

theorem updateFirst_of_find? {α} {p : α → Bool} {f : α → α} {l : List α} {y : α}
    (hfind : l.find? p = some y) (hy : f y = y) : updateFirst p f l = l := by
  induction l with
  | nil => simp at hfind
  | cons x xs ih =>
    cases hx : p x with
    | true =>
      rw [List.find?_cons_of_pos _ hx] at hfind
      simp only [updateFirst, hx, if_true]
      rw [Option.some_inj.mp hfind, hy]
    | false =>
      rw [List.find?_cons_of_neg _ (by simp [hx])] at hfind
      simp only [updateFirst, hx, Bool.false_eq_true, if_false]
      rw [ih hfind]

theorem mem_updateFirst {α} {p : α → Bool} {f : α → α} {l : List α} {x : α}
    (hx : x ∈ updateFirst p f l) : x ∈ l ∨ ∃ y ∈ l, p y = true ∧ x = f y := by
  induction l with
  | nil => simp [updateFirst] at hx
  | cons z zs ih =>
    cases hz : p z with
    | true =>
      simp only [updateFirst, hz, if_true] at hx
      rcases List.mem_cons.mp hx with h | h
      · exact Or.inr ⟨z, List.mem_cons_self z zs, hz, h⟩
      · exact Or.inl (List.mem_cons_of_mem z h)
    | false =>
      simp only [updateFirst, hz, Bool.false_eq_true, if_false] at hx
      rcases List.mem_cons.mp hx with h | h
      · exact Or.inl (h ▸ List.mem_cons_self z zs)
      · rcases ih h with h2 | ⟨y, hy, hpy, hxy⟩
        · exact Or.inl (List.mem_cons_of_mem z h2)
        · exact Or.inr ⟨y, List.mem_cons_of_mem z hy, hpy, hxy⟩

theorem updateFirst_mem_of_mem {α} {p : α → Bool} {f : α → α} {l : List α} {x : α}
    (hx : x ∈ l) : x ∈ updateFirst p f l ∨ (p x = true ∧ f x ∈ updateFirst p f l) := by
  induction l with
  | nil => simp at hx
  | cons z zs ih =>
    cases hz : p z with
    | true =>
      rcases List.mem_cons.mp hx with h | h
      · subst h
        exact Or.inr ⟨hz, by simp [updateFirst, hz]⟩
      · exact Or.inl (by simp only [updateFirst, hz, if_true]; exact List.mem_cons_of_mem _ h)
    | false =>
      rcases List.mem_cons.mp hx with h | h
      · refine Or.inl ?_
        simp only [updateFirst, hz, Bool.false_eq_true, if_false]
        exact h ▸ List.mem_cons_self z _
      · rcases ih h with h2 | ⟨hpx, h2⟩
        · refine Or.inl ?_
          simp only [updateFirst, hz, Bool.false_eq_true, if_false]
          exact List.mem_cons_of_mem z h2
        · refine Or.inr ⟨hpx, ?_⟩
          simp only [updateFirst, hz, Bool.false_eq_true, if_false]
          exact List.mem_cons_of_mem z h2

theorem updateFirst_mem_find? {α} {p : α → Bool} {f : α → α} {l : List α} {y : α}
    (hfind : l.find? p = some y) : f y ∈ updateFirst p f l := by
  induction l with
  | nil => simp at hfind
  | cons x xs ih =>
    cases hx : p x with
    | true =>
      rw [List.find?_cons_of_pos _ hx] at hfind
      simp only [updateFirst, hx, if_true]
      rw [Option.some_inj.mp hfind]
      exact List.mem_cons_self _ _
    | false =>
      rw [List.find?_cons_of_neg _ (by simp [hx])] at hfind
      simp only [updateFirst, hx, Bool.false_eq_true, if_false]
      exact List.mem_cons_of_mem x (ih hfind)

theorem map_updateFirst {α β} {p : α → Bool} {f : α → α} (g : α → β) {l : List α}
    (hg : ∀ y, p y = true → g (f y) = g y) : (updateFirst p f l).map g = l.map g := by
  induction l with
  | nil => rfl
  | cons x xs ih =>
    cases hx : p x with
    | true => simp only [updateFirst, hx, if_true, List.map_cons, hg x hx]
    | false => simp only [updateFirst, hx, Bool.false_eq_true, if_false, List.map_cons, ih]

theorem find?_updateFirst {α} {p : α → Bool} {f : α → α} {l : List α}
    (hp : ∀ y, p y = true → p (f y) = true) :
    (updateFirst p f l).find? p = (l.find? p).map f := by
  induction l with
  | nil => rfl
  | cons x xs ih =>
    cases hx : p x with
    | true =>
      simp only [updateFirst, hx, if_true]
      rw [List.find?_cons_of_pos _ (hp x hx), List.find?_cons_of_pos _ hx]
      rfl
    | false =>
      simp only [updateFirst, hx, Bool.false_eq_true, if_false]
      rw [List.find?_cons_of_neg _ (by simp [hx]), List.find?_cons_of_neg _ (by simp [hx]), ih]

theorem find?_updateFirst_other {α} {p q : α → Bool} {f : α → α} {l : List α}
    (hpq : ∀ y, p y = true → q y = false) (hfq : ∀ y, p y = true → q (f y) = false) :
    (updateFirst p f l).find? q = l.find? q := by
  induction l with
  | nil => rfl
  | cons x xs ih =>
    cases hx : p x with
    | true =>
      simp only [updateFirst, hx, if_true]
      rw [List.find?_cons_of_neg _ (by simp [hfq x hx]),
        List.find?_cons_of_neg _ (by simp [hpq x hx])]
    | false =>
      simp only [updateFirst, hx, Bool.false_eq_true, if_false]
      cases hq : q x with
      | true => rw [List.find?_cons_of_pos _ hq, List.find?_cons_of_pos _ hq]
      | false =>
        rw [List.find?_cons_of_neg _ (by simp [hq]), List.find?_cons_of_neg _ (by simp [hq]), ih]

theorem mem_addIfNew_of_mem {e x : Entry} {l : List Entry} (hx : x ∈ l) :
    x ∈ addIfNew e l := by
  unfold addIfNew
  split
  · exact hx
  · exact List.mem_append_left _ hx

theorem mem_addIfNew {e x : Entry} {l : List Entry} (hx : x ∈ addIfNew e l) :
    x ∈ l ∨ x = e := by
  unfold addIfNew at hx
  split at hx
  · exact Or.inl hx
  · rcases List.mem_append.mp hx with h | h
    · exact Or.inl h
    · exact Or.inr (List.mem_singleton.mp h)

theorem addIfNew_any_id (e : Entry) (l : List Entry) :
    (addIfNew e l).any (fun d => d.dt_id == e.dt_id) = true := by
  unfold addIfNew
  split
  · assumption
  · simp

theorem addIfNew_of_any {e : Entry} {l : List Entry}
    (h : l.any (fun d => d.dt_id == e.dt_id) = true) : addIfNew e l = l := by
  unfold addIfNew
  simp [h]

theorem addIfNew_self_mem {e : Entry} {l : List Entry}
    (h : l.any (fun d => d.dt_id == e.dt_id) = false) : e ∈ addIfNew e l := by
  unfold addIfNew
  simp [h]

theorem nodupIds_append_one {l : List Entry} {e : Entry}
    (hl : nodupIds l = true) (he : l.any (fun d => d.dt_id == e.dt_id) = false) :
    nodupIds (l ++ [e]) = true := by
  induction l with
  | nil => simp [nodupIds]
  | cons x xs ih =>
    simp only [nodupIds, Bool.and_eq_true, Bool.not_eq_true'] at hl
    simp only [List.any_cons, Bool.or_eq_false_iff] at he
    simp only [List.cons_append, nodupIds, Bool.and_eq_true, Bool.not_eq_true']
    constructor
    · simp only [List.append_eq, List.any_append, Bool.or_eq_false_iff]
      refine ⟨hl.1, ?_⟩
      simp only [List.any_cons, List.any_nil, Bool.or_false]
      have h2 : x.dt_id ≠ e.dt_id := by simpa using he.1
      simpa using Ne.symm h2
    · exact ih hl.2 he.2

theorem nodupIds_addIfNew {e : Entry} {l : List Entry} (hl : nodupIds l = true) :
    nodupIds (addIfNew e l) = true := by
  unfold addIfNew
  split
  · exact hl
  · next hno => exact nodupIds_append_one hl (by simpa using hno)

theorem insertProcessed_contains (s : List String) (x : String) :
    (insertProcessed s x).contains x = true := by
  unfold insertProcessed
  split
  · assumption
  · simp

theorem insertProcessed_of_contains {s : List String} {x : String}
    (h : s.contains x = true) : insertProcessed s x = s := by
  unfold insertProcessed
  rw [if_pos h]

theorem find?_updateFirst_cases {α} {p q : α → Bool} {f : α → α} {l : List α} {y : α}
    (hq : ∀ z, q (f z) = q z) (hfind : l.find? q = some y) :
    (updateFirst p f l).find? q = some y ∨ (updateFirst p f l).find? q = some (f y) := by
  induction l with
  | nil => simp at hfind
  | cons x xs ih =>
    cases hp : p x with
    | true =>
      simp only [updateFirst, hp, if_true]
      cases hqx : q x with
      | true =>
        rw [List.find?_cons_of_pos _ hqx] at hfind
        rw [List.find?_cons_of_pos _ (by rw [hq x]; exact hqx)]
        exact Or.inr (by rw [Option.some_inj.mp hfind])
      | false =>
        rw [List.find?_cons_of_neg _ (by simp [hqx])] at hfind
        rw [List.find?_cons_of_neg _ (by simp [hq x, hqx])]
        exact Or.inl hfind
    | false =>
      simp only [updateFirst, hp, Bool.false_eq_true, if_false]
      cases hqx : q x with
      | true =>
        rw [List.find?_cons_of_pos _ hqx] at hfind
        rw [List.find?_cons_of_pos _ hqx]
        exact Or.inl hfind
      | false =>
        rw [List.find?_cons_of_neg _ (by simp [hqx])] at hfind
        rw [List.find?_cons_of_neg _ (by simp [hqx])]
        exact ih hfind

/-! ### Bucket accessor lemmas -/

theorem bucket_setBucket_self (n : ISNode) (k : EKind) (l : List Entry) :
    (n.setBucket k l).bucket k = l := by
  cases k <;> rfl

theorem bucket_setBucket_other {k k2 : EKind} (h : k2 ≠ k) (n : ISNode) (l : List Entry) :
    (n.setBucket k l).bucket k2 = n.bucket k2 := by
  cases k <;> cases k2 <;> first | rfl | exact absurd rfl h

theorem setBucket_bucket (n : ISNode) (k : EKind) : n.setBucket k (n.bucket k) = n := by
  cases k <;> rfl

theorem name_setBucket (n : ISNode) (k : EKind) (l : List Entry) :
    (n.setBucket k l).name = n.name := by
  cases k <;> rfl

theorem uaBucket_setUaBucket_self (d : DGNode) (k : EKind) (l : List Entry) :
    (d.setUaBucket k l).uaBucket k = l := by
  cases k <;> rfl

theorem uaBucket_setUaBucket_other {k k2 : EKind} (h : k2 ≠ k) (d : DGNode) (l : List Entry) :
    (d.setUaBucket k l).uaBucket k2 = d.uaBucket k2 := by
  cases k <;> cases k2 <;> first | rfl | exact absurd rfl h

theorem setUaBucket_uaBucket (d : DGNode) (k : EKind) : d.setUaBucket k (d.uaBucket k) = d := by
  cases k <;> rfl

theorem name_setUaBucket (d : DGNode) (k : EKind) (l : List Entry) :
    (d.setUaBucket k l).name = d.name := by
  cases k <;> rfl

theorem iss_setUaBucket (d : DGNode) (k : EKind) (l : List Entry) :
    (d.setUaBucket k l).information_systems = d.information_systems := by
  cases k <;> rfl

/-! ### Placement lemmas at the DG-node level -/

theorem placeInDGNode_name (dg : DGT) (k : EKind) (e : Entry) (node : DGNode) :
    (placeInDGNode dg k e node).name = node.name := by
  unfold placeInDGNode
  split
  · split
    · rfl
    · rfl
  · exact name_setUaBucket node k _

theorem entryInNode_mono {node : DGNode} {dg : DGT} {k k2 : EKind} {e x : Entry}
    (hx : entryInNode node k2 x) : entryInNode (placeInDGNode dg k e node) k2 x := by
  unfold placeInDGNode
  rcases hx with hua | ⟨isn, hisn, hb⟩
  · split
    · split
      · exact Or.inl hua
      · exact Or.inl hua
    · refine Or.inl ?_
      by_cases hk : k2 = k
      · subst hk
        rw [uaBucket_setUaBucket_self]
        exact mem_addIfNew_of_mem hua
      · rw [uaBucket_setUaBucket_other hk]
        exact hua
  · split
    · split
      · refine Or.inr ?_
        rcases updateFirst_mem_of_mem (p := fun n => n.name == _)
            (f := fun n => n.setBucket k (addIfNew e (n.bucket k))) hisn with h | ⟨_, h⟩
        · exact ⟨isn, h, hb⟩
        · refine ⟨isn.setBucket k (addIfNew e (isn.bucket k)), h, ?_⟩
          by_cases hk : k2 = k
          · subst hk
            rw [bucket_setBucket_self]
            exact mem_addIfNew_of_mem hb
          · rw [bucket_setBucket_other hk]
            exact hb
      · exact Or.inr ⟨isn, List.mem_append_left _ hisn, hb⟩
    · refine Or.inr ?_
      rw [iss_setUaBucket]
      exact ⟨isn, hisn, hb⟩

theorem entryInNode_new {node : DGNode} {dg : DGT} {k k2 : EKind} {e x : Entry}
    (hx : entryInNode (placeInDGNode dg k e node) k2 x) :
    entryInNode node k2 x ∨ (x = e ∧ k2 = k) := by
  unfold placeInDGNode at hx
  by_cases hk : k2 = k
  · subst hk
    revert hx
    split
    · split
      · intro hx
        rcases hx with hua | ⟨isn, hisn, hb⟩
        · exact Or.inl (Or.inl hua)
        · rcases mem_updateFirst hisn with h | ⟨y, hy, _, hxy⟩
          · exact Or.inl (Or.inr ⟨isn, h, hb⟩)
          · subst hxy
            rw [bucket_setBucket_self] at hb
            rcases mem_addIfNew hb with h2 | h2
            · exact Or.inl (Or.inr ⟨y, hy, h2⟩)
            · exact Or.inr ⟨h2, rfl⟩
      · intro hx
        rcases hx with hua | ⟨isn, hisn, hb⟩
        · exact Or.inl (Or.inl hua)
        · rcases List.mem_append.mp hisn with h | h
          · exact Or.inl (Or.inr ⟨isn, h, hb⟩)
          · rw [List.mem_singleton.mp h, bucket_setBucket_self] at hb
            rcases mem_addIfNew hb with h2 | h2
            · simp at h2
            · exact Or.inr ⟨h2, rfl⟩
    · intro hx
      rcases hx with hua | ⟨isn, hisn, hb⟩
      · rw [uaBucket_setUaBucket_self] at hua
        rcases mem_addIfNew hua with h2 | h2
        · exact Or.inl (Or.inl h2)
        · exact Or.inr ⟨h2, rfl⟩
      · rw [iss_setUaBucket] at hisn
        exact Or.inl (Or.inr ⟨isn, hisn, hb⟩)
  · refine Or.inl ?_
    revert hx
    split
    · split
      · intro hx
        rcases hx with hua | ⟨isn, hisn, hb⟩
        · exact Or.inl hua
        · rcases mem_updateFirst hisn with h | ⟨y, hy, _, hxy⟩
          · exact Or.inr ⟨isn, h, hb⟩
          · subst hxy
            rw [bucket_setBucket_other hk] at hb
            exact Or.inr ⟨y, hy, hb⟩
      · intro hx
        rcases hx with hua | ⟨isn, hisn, hb⟩
        · exact Or.inl hua
        · rcases List.mem_append.mp hisn with h | h
          · exact Or.inr ⟨isn, h, hb⟩
          · rw [List.mem_singleton.mp h, bucket_setBucket_other hk] at hb
            cases k2 <;> simp [createISNode, ISNode.bucket] at hb
    · intro hx
      rcases hx with hua | ⟨isn, hisn, hb⟩
      · rw [uaBucket_setUaBucket_other hk] at hua
        exact Or.inl hua
      · rw [iss_setUaBucket] at hisn
        exact Or.inr ⟨isn, hisn, hb⟩

theorem any_addIfNew_of_any {l : List Entry} {e : Entry} {q : Entry → Bool}
    (h : l.any q = true) : (addIfNew e l).any q = true := by
  obtain ⟨x, hx, hq⟩ := List.any_eq_true.mp h
  exact List.any_eq_true.mpr ⟨x, mem_addIfNew_of_mem hx, hq⟩

theorem nodeHasId_false_parts {d : DGNode} {k : EKind} {x : String}
    (h : nodeHasId d k x = false) :
    (d.uaBucket k).any (fun e => e.dt_id == x) = false ∧
      ∀ isn ∈ d.information_systems, (isn.bucket k).any (fun e => e.dt_id == x) = false := by
  unfold nodeHasId at h
  rcases Bool.or_eq_false_iff.mp h with ⟨h1, h2⟩
  refine ⟨h1, fun isn hisn => ?_⟩
  have := List.any_eq_false.mp h2 isn hisn
  simpa using this

theorem nodeHasId_true_exists {d : DGNode} {k : EKind} {x : String}
    (h : nodeHasId d k x = true) :
    ∃ e, entryInNode d k e ∧ e.dt_id = x := by
  unfold nodeHasId at h
  rcases Bool.or_eq_true_iff.mp h with h1 | h2
  · obtain ⟨e, he, hid⟩ := List.any_eq_true.mp h1
    exact ⟨e, Or.inl he, by simpa using hid⟩
  · obtain ⟨isn, hisn, hany⟩ := List.any_eq_true.mp h2
    obtain ⟨e, he, hid⟩ := List.any_eq_true.mp hany
    exact ⟨e, Or.inr ⟨isn, hisn, he⟩, by simpa using hid⟩

theorem entryInNode_place_self {node : DGNode} {dg : DGT} {k : EKind} {e : Entry}
    (hno : nodeHasId node k e.dt_id = false) :
    entryInNode (placeInDGNode dg k e node) k e := by
  obtain ⟨hua, hiss⟩ := nodeHasId_false_parts hno
  unfold placeInDGNode
  split
  · next isTop hfd =>
    split
    · next hany =>
      have hsome : (node.information_systems.find? (fun n => n.name == isTop.name)).isSome := by
        rw [List.find?_isSome]
        exact List.any_eq_true.mp hany
      obtain ⟨isn0, hfind2⟩ := Option.isSome_iff_exists.mp hsome
      refine Or.inr ⟨isn0.setBucket k (addIfNew e (isn0.bucket k)),
        updateFirst_mem_find? hfind2, ?_⟩
      rw [bucket_setBucket_self]
      exact addIfNew_self_mem (hiss isn0 (List.mem_of_find?_eq_some hfind2))
    · refine Or.inr ⟨(createISNode isTop).setBucket k (addIfNew e []),
        List.mem_append_right _ (List.mem_singleton_self _), ?_⟩
      rw [bucket_setBucket_self]
      exact addIfNew_self_mem (by simp)
  · refine Or.inl ?_
    rw [uaBucket_setUaBucket_self]
    exact addIfNew_self_mem hua

theorem uaBucket_placeInDGNode (node : DGNode) (dg2 : DGT) (k : EKind) (e2 : Entry) :
    (placeInDGNode dg2 k e2 node).uaBucket k = node.uaBucket k ∨
      (placeInDGNode dg2 k e2 node).uaBucket k = addIfNew e2 (node.uaBucket k) := by
  unfold placeInDGNode
  split
  · split
    · exact Or.inl (by cases k <;> rfl)
    · exact Or.inl (by cases k <;> rfl)
  · exact Or.inr (uaBucket_setUaBucket_self node k _)

theorem find?_iss_placeInDGNode {node : DGNode} {dg2 : DGT} {k : EKind} {e2 : Entry}
    {nm : String} {isn : ISNode}
    (hfind2 : node.information_systems.find? (fun n => n.name == nm) = some isn) :
    (placeInDGNode dg2 k e2 node).information_systems.find? (fun n => n.name == nm) = some isn ∨
      (placeInDGNode dg2 k e2 node).information_systems.find? (fun n => n.name == nm) =
        some (isn.setBucket k (addIfNew e2 (isn.bucket k))) := by
  unfold placeInDGNode
  split
  · split
    · exact find?_updateFirst_cases (fun z => by simp [name_setBucket]) hfind2
    · refine Or.inl ?_
      simp only [List.find?_append, hfind2, Option.or_some]
  · rw [iss_setUaBucket]
    exact Or.inl hfind2

theorem placeInDGNode_ua_self {node : DGNode} {dg : DGT} {k : EKind} {e : Entry}
    (hfd : dg.iss.find? (fun i => (i.memberIds k).contains e.dt_id) = none) :
    ((placeInDGNode dg k e node).uaBucket k).any (fun d => d.dt_id == e.dt_id) = true := by
  unfold placeInDGNode
  simp only [hfd]
  rw [uaBucket_setUaBucket_self]
  exact addIfNew_any_id e _

theorem placeInDGNode_iss_self {node : DGNode} {dg : DGT} {k : EKind} {e : Entry}
    {isTop : ISys}
    (hfd : dg.iss.find? (fun i => (i.memberIds k).contains e.dt_id) = some isTop) :
    ∃ isn, (placeInDGNode dg k e node).information_systems.find?
        (fun n => n.name == isTop.name) = some isn ∧
      ((isn.bucket k).any fun d => d.dt_id == e.dt_id) = true := by
  unfold placeInDGNode
  simp only [hfd]
  by_cases hany : (node.information_systems.any fun n => n.name == isTop.name) = true
  · rw [if_pos hany]
    have hsome : (node.information_systems.find? (fun n => n.name == isTop.name)).isSome := by
      rw [List.find?_isSome]
      exact List.any_eq_true.mp hany
    obtain ⟨isn0, hfind2⟩ := Option.isSome_iff_exists.mp hsome
    have hres := find?_updateFirst
      (p := fun n => n.name == isTop.name)
      (f := fun n => n.setBucket k (addIfNew e (n.bucket k)))
      (l := node.information_systems)
      (fun y hy => by simpa [name_setBucket] using hy)
    refine ⟨isn0.setBucket k (addIfNew e (isn0.bucket k)), ?_, ?_⟩
    · show (updateFirst (fun n => n.name == isTop.name)
        (fun n => n.setBucket k (addIfNew e (n.bucket k)))
        node.information_systems).find? (fun n => n.name == isTop.name) = _
      rw [hres, hfind2, Option.map_some']
    · rw [bucket_setBucket_self]
      exact addIfNew_any_id e _
  · rw [if_neg hany]
    have hnone : node.information_systems.find? (fun n => n.name == isTop.name) = none := by
      rw [List.find?_eq_none]
      intro isn hisn hcon
      exact hany (List.any_eq_true.mpr ⟨isn, hisn, hcon⟩)
    refine ⟨(createISNode isTop).setBucket k (addIfNew e []), ?_, ?_⟩
    · show (node.information_systems ++
        [(createISNode isTop).setBucket k (addIfNew e [])]).find?
          (fun n => n.name == isTop.name) = _
      rw [List.find?_append, hnone, Option.none_or,
        List.find?_cons_of_pos _ (by rw [name_setBucket]; simp [createISNode])]
    · rw [bucket_setBucket_self]
      exact addIfNew_any_id e _

theorem nodeTargetHas_place (dg : DGT) (k : EKind) (e : Entry) (node : DGNode) :
    nodeTargetHas k dg e.dt_id (placeInDGNode dg k e node) := by
  unfold nodeTargetHas
  cases hfd : dg.iss.find? (fun i => (i.memberIds k).contains e.dt_id) with
  | none => exact placeInDGNode_ua_self hfd
  | some isTop =>
    obtain ⟨isn, hfind, hany⟩ := @placeInDGNode_iss_self node dg k e isTop hfd
    simp only [hfind]
    exact hany

theorem placeInDGNode_id {dg : DGT} {k : EKind} {e : Entry} {node : DGNode}
    (ht : nodeTargetHas k dg e.dt_id node) : placeInDGNode dg k e node = node := by
  unfold nodeTargetHas at ht
  unfold placeInDGNode
  cases hfd : dg.iss.find? (fun i => (i.memberIds k).contains e.dt_id) with
  | none =>
    rw [hfd] at ht
    simp only
    rw [addIfNew_of_any ht, setUaBucket_uaBucket]
  | some isTop =>
    rw [hfd] at ht
    simp only at ht ⊢
    cases hfind2 : node.information_systems.find? (fun n => n.name == isTop.name) with
    | none => rw [hfind2] at ht; exact ht.elim
    | some isn =>
      rw [hfind2] at ht
      have hp := List.find?_some hfind2
      have hany : (node.information_systems.any fun n => n.name == isTop.name) = true :=
        List.any_eq_true.mpr ⟨isn, List.mem_of_find?_eq_some hfind2, hp⟩
      rw [if_pos hany]
      have hupd : updateFirst (fun n => n.name == isTop.name)
          (fun n => n.setBucket k (addIfNew e (n.bucket k))) node.information_systems =
          node.information_systems := by
        refine updateFirst_of_find? hfind2 ?_
        show isn.setBucket k (addIfNew e (isn.bucket k)) = isn
        rw [addIfNew_of_any ht, setBucket_bucket]
      rw [hupd]

theorem nodeTargetHas_mono {dg dg2 : DGT} {k : EKind} {x : String} {e2 : Entry}
    {node : DGNode} (ht : nodeTargetHas k dg x node) :
    nodeTargetHas k dg x (placeInDGNode dg2 k e2 node) := by
  unfold nodeTargetHas at ht ⊢
  cases hfd : dg.iss.find? (fun i => (i.memberIds k).contains x) with
  | none =>
    rw [hfd] at ht
    rcases uaBucket_placeInDGNode node dg2 k e2 with h | h
    · rw [h]; exact ht
    · rw [h]; exact any_addIfNew_of_any ht
  | some isTop =>
    rw [hfd] at ht
    simp only at ht ⊢
    cases hfind2 : node.information_systems.find? (fun n => n.name == isTop.name) with
    | none => rw [hfind2] at ht; exact ht.elim
    | some isn =>
      rw [hfind2] at ht
      rcases @find?_iss_placeInDGNode node dg2 k e2 isTop.name isn hfind2 with h | h
      · simp only [h]
        exact ht
      · simp only [h]
        rw [bucket_setBucket_self]
        exact any_addIfNew_of_any ht

/-! ### Lemmas at the report level -/

theorem contains_iff_mem {s : List String} {x : String} : s.contains x = true ↔ x ∈ s := by
  simp [List.contains]

theorem insertProcessed_mono {s : List String} {x y : String}
    (h : s.contains y = true) : (insertProcessed s x).contains y = true := by
  unfold insertProcessed
  split
  · exact h
  · exact contains_iff_mem.mpr (List.mem_append_left _ (contains_iff_mem.mp h))

theorem placeEntity_dgs_names (k : EKind) (dg : DGT) (e : Entry) (r : Report) :
    (placeEntity k dg e r).dgs.map (fun d => d.name) = r.dgs.map (fun d => d.name) := by
  unfold placeEntity
  split
  · exact map_updateFirst _ (fun y _ => placeInDGNode_name dg k e y)
  · rfl

theorem nodeExists_placeEntity (k : EKind) (dg : DGT) (e : Entry) (r : Report) (n : String) :
    nodeExists (placeEntity k dg e r) n = nodeExists r n := by
  unfold nodeExists
  have hview : ∀ rr : List DGNode, (rr.any fun d => d.name == n) =
      ((rr.map fun d => d.name).any fun s => s == n) := by
    intro rr
    induction rr with
    | nil => rfl
    | cons d t ih => simp [List.any_cons, ih]
  rw [hview, hview, placeEntity_dgs_names]

theorem entryUnder_mono {r : Report} {n : String} {k k2 : EKind} {dg : DGT} {e x : Entry}
    (hx : entryUnder r n k2 x) : entryUnder (placeEntity k dg e r) n k2 x := by
  obtain ⟨d, hd, hname, hin⟩ := hx
  unfold placeEntity
  split
  · rcases updateFirst_mem_of_mem (p := fun nn => nn.name == dg.name)
      (f := placeInDGNode dg k e) hd with h | ⟨_, h⟩
    · exact ⟨d, h, hname, hin⟩
    · exact ⟨placeInDGNode dg k e d, h,
        by rw [placeInDGNode_name]; exact hname, entryInNode_mono hin⟩
  · exact ⟨d, hd, hname, hin⟩

theorem entryUnder_new {r : Report} {n : String} {k k2 : EKind} {dg : DGT} {e x : Entry}
    (hx : entryUnder (placeEntity k dg e r) n k2 x) :
    entryUnder r n k2 x ∨ (x = e ∧ n = dg.name ∧ k2 = k) := by
  unfold placeEntity at hx
  by_cases hex : (r.dgs.any fun nn => nn.name == dg.name) = true
  · rw [if_pos hex] at hx
    obtain ⟨d, hd, hname, hin⟩ := hx
    rcases mem_updateFirst hd with h | ⟨y, hy, hpy, hdy⟩
    · exact Or.inl ⟨d, h, hname, hin⟩
    · subst hdy
      rw [placeInDGNode_name] at hname
      rcases entryInNode_new hin with h2 | ⟨hxe, hk⟩
      · exact Or.inl ⟨y, hy, hname, h2⟩
      · have hyname : y.name = dg.name := by simpa using hpy
        exact Or.inr ⟨hxe, by rw [← hname, hyname], hk⟩
  · rw [if_neg hex] at hx
    exact Or.inl hx

theorem noIdUnder_place_of_ne {r : Report} {dg : DGT} {k k2 : EKind} {e : Entry}
    {x : String} {n : String} (hno : noIdUnder r n k2 x) (hne : dg.name ≠ n) :
    noIdUnder (placeEntity k dg e r) n k2 x := by
  intro e2 he2
  rcases entryUnder_new he2 with h | ⟨_, hn, _⟩
  · exact hno e2 h
  · exact absurd hn.symm hne

theorem entryUnder_place_self {r : Report} {dg : DGT} {k : EKind} {e : Entry}
    (hex : nodeExists r dg.name = true) (hno : noIdUnder r dg.name k e.dt_id) :
    entryUnder (placeEntity k dg e r) dg.name k e := by
  unfold nodeExists at hex
  unfold placeEntity
  rw [if_pos hex]
  have hsome : (r.dgs.find? (fun d => d.name == dg.name)).isSome := by
    rw [List.find?_isSome]
    exact List.any_eq_true.mp hex
  obtain ⟨d0, hfd⟩ := Option.isSome_iff_exists.mp hsome
  have hname : d0.name = dg.name := by simpa using List.find?_some hfd
  have hmem := List.mem_of_find?_eq_some hfd
  refine ⟨placeInDGNode dg k e d0, updateFirst_mem_find? hfd,
    by rw [placeInDGNode_name]; exact hname, ?_⟩
  apply entryInNode_place_self
  cases hhas : nodeHasId d0 k e.dt_id with
  | false => rfl
  | true =>
    obtain ⟨e2, hin, hid⟩ := nodeHasId_true_exists hhas
    exact absurd hid (hno e2 ⟨d0, hmem, hname, hin⟩)

theorem targetHas_place {r : Report} {dg : DGT} {k : EKind} {e : Entry}
    (hex : nodeExists r dg.name = true) :
    targetHas k dg e.dt_id (placeEntity k dg e r) := by
  unfold nodeExists at hex
  unfold placeEntity
  rw [if_pos hex]
  unfold targetHas
  have hsome : (r.dgs.find? (fun d => d.name == dg.name)).isSome := by
    rw [List.find?_isSome]
    exact List.any_eq_true.mp hex
  obtain ⟨d0, hfd⟩ := Option.isSome_iff_exists.mp hsome
  have hres := find?_updateFirst (p := fun d => d.name == dg.name)
    (f := placeInDGNode dg k e) (l := r.dgs)
    (fun y hy => by simpa [placeInDGNode_name] using hy)
  simp only [hres, hfd, Option.map_some']
  exact nodeTargetHas_place dg k e d0

theorem placeEntity_id {r : Report} {dg : DGT} {k : EKind} {e : Entry}
    (ht : targetHas k dg e.dt_id r) : placeEntity k dg e r = r := by
  unfold targetHas at ht
  unfold placeEntity
  cases hfd : r.dgs.find? (fun d => d.name == dg.name) with
  | none => rw [hfd] at ht; exact ht.elim
  | some node =>
    rw [hfd] at ht
    have hpnode := List.find?_some hfd
    have hany : (r.dgs.any fun n => n.name == dg.name) = true :=
      List.any_eq_true.mpr ⟨node, List.mem_of_find?_eq_some hfd, hpnode⟩
    rw [if_pos hany]
    have hupd : updateFirst (fun n => n.name == dg.name) (placeInDGNode dg k e) r.dgs =
        r.dgs := updateFirst_of_find? hfd (placeInDGNode_id ht)
    rw [hupd]

theorem targetHas_mono {r : Report} {dg dg2 : DGT} {k : EKind} {x : String} {e2 : Entry}
    (ht : targetHas k dg x r) : targetHas k dg x (placeEntity k dg2 e2 r) := by
  unfold targetHas at ht ⊢
  unfold placeEntity
  by_cases hex : (r.dgs.any fun n => n.name == dg2.name) = true
  case neg => rw [if_neg hex]; exact ht
  rw [if_pos hex]
  cases hfd : r.dgs.find? (fun d => d.name == dg.name) with
  | none => rw [hfd] at ht; exact ht.elim
  | some node =>
    rw [hfd] at ht
    by_cases hnm : dg2.name = dg.name
    · have hcase := find?_updateFirst_cases (p := fun d => d.name == dg2.name)
        (q := fun d => d.name == dg.name) (f := placeInDGNode dg2 k e2)
        (fun z => by simp [placeInDGNode_name]) hfd
      rcases hcase with h | h
      · simp only [h]
        exact ht
      · simp only [h]
        exact nodeTargetHas_mono ht
    · have h := find?_updateFirst_other (p := fun d => d.name == dg2.name)
        (q := fun d => d.name == dg.name) (f := placeInDGNode dg2 k e2) (l := r.dgs)
        (fun y hy => by
          have : y.name = dg2.name := by simpa using hy
          simp [this, hnm])
        (fun y hy => by
          have : y.name = dg2.name := by simpa using hy
          simp [placeInDGNode_name, this, hnm])
      simp only [h, hfd]
      exact ht

/-! ### Lemmas about ensureDGs -/

theorem entryInNode_createDGNode {dg : DGT} {k : EKind} {e : Entry} :
    ¬ entryInNode (createDGNode dg) k e := by
  intro h
  rcases h with h | ⟨isn, hisn, _⟩
  · cases k <;> simp [createDGNode, DGNode.uaBucket] at h
  · simp [createDGNode] at hisn

theorem ensureDGs_cons (d : DGT) (t : List DGT) (r : Report) :
    ensureDGs (d :: t) r = ensureDGs t
      (if (r.dgs.any fun n => n.name == d.name) = true then r
        else { r with dgs := r.dgs ++ [createDGNode d] }) := rfl

theorem entryUnder_ensureDGs {dgl : List DGT} {r : Report} {n : String} {k : EKind}
    {e : Entry} : entryUnder (ensureDGs dgl r) n k e ↔ entryUnder r n k e := by
  induction dgl generalizing r with
  | nil => exact Iff.rfl
  | cons d t ih =>
    rw [ensureDGs_cons]
    rw [ih]
    split
    · exact Iff.rfl
    · constructor
      · rintro ⟨dn, hdn, hname, hin⟩
        rcases List.mem_append.mp hdn with h | h
        · exact ⟨dn, h, hname, hin⟩
        · rw [List.mem_singleton.mp h] at hin
          exact absurd hin entryInNode_createDGNode
      · rintro ⟨dn, hdn, hname, hin⟩
        exact ⟨dn, List.mem_append_left _ hdn, hname, hin⟩

theorem noIdUnder_ensureDGs {dgl : List DGT} {r : Report} {n : String} {k : EKind}
    {x : String} (h : noIdUnder r n k x) : noIdUnder (ensureDGs dgl r) n k x :=
  fun e he => h e (entryUnder_ensureDGs.mp he)

theorem nodeExists_ensureDGs_mono {dgl : List DGT} {r : Report} {n : String}
    (h : nodeExists r n = true) : nodeExists (ensureDGs dgl r) n = true := by
  induction dgl generalizing r with
  | nil => exact h
  | cons d t ih =>
    rw [ensureDGs_cons]
    refine ih ?_
    split
    · exact h
    · unfold nodeExists at h ⊢
      obtain ⟨y, hy, hp⟩ := List.any_eq_true.mp h
      exact List.any_eq_true.mpr ⟨y, List.mem_append_left _ hy, hp⟩

theorem ensureDGs_has {dgl : List DGT} {r : Report} :
    ∀ dg ∈ dgl, nodeExists (ensureDGs dgl r) dg.name = true := by
  induction dgl generalizing r with
  | nil => intro dg h; simp at h
  | cons d t ih =>
    intro dg hdg
    rcases List.mem_cons.mp hdg with h | h
    · subst h
      rw [ensureDGs_cons]
      refine nodeExists_ensureDGs_mono ?_
      split
      · assumption
      · unfold nodeExists
        refine List.any_eq_true.mpr ⟨createDGNode dg, List.mem_append_right _ ?_, ?_⟩
        · exact List.mem_singleton_self _
        · simp [createDGNode]
    · rw [ensureDGs_cons]
      exact ih dg h

theorem ensureDGs_id {dgl : List DGT} {r : Report}
    (h : ∀ dg ∈ dgl, nodeExists r dg.name = true) : ensureDGs dgl r = r := by
  induction dgl with
  | nil => rfl
  | cons d t ih =>
    rw [ensureDGs_cons]
    have hd := h d (List.mem_cons_self d t)
    unfold nodeExists at hd
    rw [if_pos hd]
    exact ih (fun dg hdg => h dg (List.mem_cons_of_mem d hdg))

theorem targetHas_ensureDGs {dgl : List DGT} {r : Report} {k : EKind} {dg : DGT}
    {x : String} (ht : targetHas k dg x r) : targetHas k dg x (ensureDGs dgl r) := by
  induction dgl generalizing r with
  | nil => exact ht
  | cons d t ih =>
    rw [ensureDGs_cons]
    refine ih ?_
    split
    · exact ht
    · unfold targetHas at ht ⊢
      cases hfd : r.dgs.find? (fun dn => dn.name == dg.name) with
      | none => rw [hfd] at ht; exact ht.elim
      | some node =>
        rw [hfd] at ht
        have : (r.dgs ++ [createDGNode d]).find? (fun dn => dn.name == dg.name) =
            some node := by
          rw [List.find?_append, hfd, Option.or_some]
        simp only [this]
        exact ht

/-! ### Lemmas about the placement fold -/

theorem placeFold_nil (k : EKind) (mk : DGT → Entry) (r : Report) :
    placeFold k mk [] r = r := rfl

theorem placeFold_cons (k : EKind) (mk : DGT → Entry) (d : DGT) (t : List DGT) (r : Report) :
    placeFold k mk (d :: t) r = placeFold k mk t (placeEntity k d (mk d) r) := rfl

theorem placeFold_entryUnder_mono {k : EKind} {mk : DGT → Entry} {l : List DGT}
    {r : Report} {n : String} {k2 : EKind} {x : Entry}
    (hx : entryUnder r n k2 x) : entryUnder (placeFold k mk l r) n k2 x := by
  induction l generalizing r with
  | nil => exact hx
  | cons d t ih =>
    rw [placeFold_cons]
    exact ih (entryUnder_mono hx)

theorem placeFold_new {k : EKind} {mk : DGT → Entry} {l : List DGT} {r : Report}
    {n : String} {k2 : EKind} {x : Entry}
    (hx : entryUnder (placeFold k mk l r) n k2 x) :
    entryUnder r n k2 x ∨ ∃ dg ∈ l, n = dg.name ∧ x = mk dg ∧ k2 = k := by
  induction l generalizing r with
  | nil => exact Or.inl hx
  | cons d t ih =>
    rw [placeFold_cons] at hx
    rcases ih hx with h | ⟨dg, hdg, hn, hxe, hk⟩
    · rcases entryUnder_new h with h2 | ⟨hxe, hn, hk⟩
      · exact Or.inl h2
      · exact Or.inr ⟨d, List.mem_cons_self d t, hn, hxe, hk⟩
    · exact Or.inr ⟨dg, List.mem_cons_of_mem d hdg, hn, hxe, hk⟩

theorem placeFold_nodeExists {k : EKind} {mk : DGT → Entry} {l : List DGT} {r : Report}
    {n : String} : nodeExists (placeFold k mk l r) n = nodeExists r n := by
  induction l generalizing r with
  | nil => rfl
  | cons d t ih =>
    rw [placeFold_cons, ih, nodeExists_placeEntity]

theorem placeFold_targetHas_mono {k : EKind} {mk : DGT → Entry} {l : List DGT}
    {r : Report} {dg : DGT} {x : String}
    (ht : targetHas k dg x r) : targetHas k dg x (placeFold k mk l r) := by
  induction l generalizing r with
  | nil => exact ht
  | cons d t ih =>
    rw [placeFold_cons]
    exact ih (targetHas_mono ht)

theorem placeFold_targets {k : EKind} {mk : DGT → Entry} {l : List DGT} {r : Report}
    {x : String} (hid : ∀ dg, (mk dg).dt_id = x)
    (hex : ∀ dg ∈ l, nodeExists r dg.name = true) :
    ∀ dg ∈ l, targetHas k dg x (placeFold k mk l r) := by
  induction l generalizing r with
  | nil => intro dg h; simp at h
  | cons d t ih =>
    intro dg hdg
    rw [placeFold_cons]
    rcases List.mem_cons.mp hdg with h | h
    · subst h
      refine placeFold_targetHas_mono ?_
      have := targetHas_place (k := k) (e := mk dg) (hex dg (List.mem_cons_self dg t))
      rw [hid dg] at this
      exact this
    · refine ih (fun dg2 hdg2 => ?_) dg h
      rw [nodeExists_placeEntity]
      exact hex dg2 (List.mem_cons_of_mem d hdg2)

theorem placeFold_id {k : EKind} {mk : DGT → Entry} {l : List DGT} {r : Report}
    (ht : ∀ dg ∈ l, targetHas k dg (mk dg).dt_id r) : placeFold k mk l r = r := by
  induction l with
  | nil => rfl
  | cons d t ih =>
    rw [placeFold_cons, placeEntity_id (ht d (List.mem_cons_self d t))]
    exact ih (fun dg hdg => ht dg (List.mem_cons_of_mem d hdg))

theorem placeFold_establish {k : EKind} {mk : DGT → Entry} {l : List DGT} {r : Report}
    {x : String} (hid : ∀ dg, (mk dg).dt_id = x)
    (hnd : (l.map (fun d => d.name)).Nodup)
    (hex : ∀ dg ∈ l, nodeExists r dg.name = true)
    (hno : ∀ dg ∈ l, noIdUnder r dg.name k x) :
    ∀ dg ∈ l, entryUnder (placeFold k mk l r) dg.name k (mk dg) := by
  induction l generalizing r with
  | nil => intro dg h; simp at h
  | cons d t ih =>
    have hnd2 := List.nodup_cons.mp hnd
    intro dg hdg
    rw [placeFold_cons]
    rcases List.mem_cons.mp hdg with h | h
    · subst h
      refine placeFold_entryUnder_mono ?_
      refine entryUnder_place_self (hex dg (List.mem_cons_self dg t)) ?_
      rw [← hid dg] at hno
      exact (hno dg (List.mem_cons_self dg t))
    · refine ih hnd2.2 (fun dg2 hdg2 => ?_) (fun dg2 hdg2 => ?_) dg h
      · rw [nodeExists_placeEntity]
        exact hex dg2 (List.mem_cons_of_mem d hdg2)
      · refine noIdUnder_place_of_ne (hno dg2 (List.mem_cons_of_mem d hdg2)) ?_
        intro hcon
        have hmem2 : dg2.name ∈ t.map (fun dd => dd.name) :=
          List.mem_map_of_mem (fun dd => dd.name) hdg2
        rw [← hcon] at hmem2
        exact hnd2.1 hmem2

/-! ### Processor-level lemmas -/

theorem hostChargedDGs_subset {h : Host} : ∀ dg ∈ hostChargedDGs h, dg ∈ h.dgs := by
  intro dg hdg
  unfold hostChargedDGs at hdg
  split at hdg
  · split at hdg
    · next hfd =>
      rw [List.mem_singleton.mp hdg]
      exact List.mem_of_find?_eq_some hfd
    · exact List.mem_of_mem_take hdg
  · exact hdg

theorem appChargedDGs_subset {a : App} : ∀ dg ∈ appChargedDGs a, dg ∈ a.dgs := by
  intro dg hdg
  unfold appChargedDGs at hdg
  split at hdg
  · split at hdg
    · next hfd =>
      rw [List.mem_singleton.mp hdg]
      exact List.mem_of_find?_eq_some hfd
    · simp at hdg
  · exact hdg

theorem synChargedDGs_subset {s : Syn} : ∀ dg ∈ synChargedDGs s, dg ∈ s.dgs := by
  intro dg hdg
  unfold synChargedDGs at hdg
  split at hdg
  · split at hdg
    · next hfd =>
      rw [List.mem_singleton.mp hdg]
      exact List.mem_of_find?_eq_some hfd
    · simp at hdg
  · exact hdg

theorem processHost_eq (cfg : Config) (ud : UsageData) (h : Host) (st : RState) :
    processHost cfg ud h st =
      { report := placeFold EKind.hosts (hostEntry ud h)
          (if cfg.include_non_charged_entities_in_dg then h.dgs else hostChargedDGs h)
          (ensureDGs h.dgs st.report)
        processed := insertProcessed st.processed h.dt_id } := rfl

theorem hostEntry_dt_id (ud : UsageData) (h : Host) (dg : DGT) :
    (hostEntry ud h dg).dt_id = h.dt_id := rfl

theorem appEntry_dt_id (ud : UsageData) (a : App) (dg : DGT) :
    (appEntry ud a dg).dt_id = a.dt_id := rfl

theorem synEntry_dt_id (ud : UsageData) (s : Syn) (dg : DGT) :
    (synEntry ud s dg).dt_id = s.dt_id := rfl

theorem processHost_idem (cfg : Config) (ud : UsageData) (h : Host) (st : RState) :
    processHost cfg ud h (processHost cfg ud h st) = processHost cfg ud h st := by
  rw [processHost_eq cfg ud h st, processHost_eq]
  set pdgs := if cfg.include_non_charged_entities_in_dg then h.dgs else hostChargedDGs h
    with hpdgs
  have hsub : ∀ dg ∈ pdgs, dg ∈ h.dgs := by
    rw [hpdgs]
    split
    · exact fun dg hdg => hdg
    · exact hostChargedDGs_subset
  set r1 := ensureDGs h.dgs st.report with hr1
  set r2 := placeFold EKind.hosts (hostEntry ud h) pdgs r1 with hr2
  have hex2 : ∀ dg ∈ h.dgs, nodeExists r2 dg.name = true := by
    intro dg hdg
    rw [hr2, placeFold_nodeExists]
    exact ensureDGs_has dg hdg
  have hens : ensureDGs h.dgs r2 = r2 := ensureDGs_id hex2
  have htargets : ∀ dg ∈ pdgs, targetHas EKind.hosts dg h.dt_id r2 := by
    rw [hr2]
    refine placeFold_targets (fun dg => hostEntry_dt_id ud h dg) ?_
    intro dg hdg
    rw [hr1]
    exact ensureDGs_has dg (hsub dg hdg)
  have hfold : placeFold EKind.hosts (hostEntry ud h) pdgs r2 = r2 := by
    refine placeFold_id ?_
    intro dg hdg
    rw [hostEntry_dt_id]
    exact htargets dg hdg
  simp only [hens, hfold]
  rw [insertProcessed_of_contains (insertProcessed_contains _ _)]

theorem processApplication_skip {cfg : Config} {ud : UsageData} {a : App} {st : RState}
    (h : st.processed.contains a.dt_id = true) : processApplication cfg ud a st = st := by
  unfold processApplication
  rw [if_pos h]

theorem processApplication_processed (cfg : Config) (ud : UsageData) (a : App)
    (st : RState) : (processApplication cfg ud a st).processed.contains a.dt_id = true := by
  unfold processApplication
  split
  · assumption
  · exact insertProcessed_contains _ _

theorem processApplication_idem (cfg : Config) (ud : UsageData) (a : App) (st : RState) :
    processApplication cfg ud a (processApplication cfg ud a st) =
      processApplication cfg ud a st :=
  processApplication_skip (processApplication_processed cfg ud a st)

theorem processSynthetic_skip {cfg : Config} {ud : UsageData} {s : Syn} {st : RState}
    (h : st.processed.contains s.dt_id = true) : processSynthetic cfg ud s st = st := by
  unfold processSynthetic
  rw [if_pos h]

theorem processSynthetic_processed (cfg : Config) (ud : UsageData) (s : Syn)
    (st : RState) : (processSynthetic cfg ud s st).processed.contains s.dt_id = true := by
  unfold processSynthetic
  split
  · assumption
  · exact insertProcessed_contains _ _

theorem processSynthetic_idem (cfg : Config) (ud : UsageData) (s : Syn) (st : RState) :
    processSynthetic cfg ud s (processSynthetic cfg ud s st) =
      processSynthetic cfg ud s st :=
  processSynthetic_skip (processSynthetic_processed cfg ud s st)

theorem processResource_idem (cfg : Config) (ud : UsageData) (res : Resource)
    (st : RState) : processResource cfg ud res (processResource cfg ud res st) =
      processResource cfg ud res st := by
  cases res with
  | host h => exact processHost_idem cfg ud h st
  | app a => exact processApplication_idem cfg ud a st
  | syn s => exact processSynthetic_idem cfg ud s st

/-! ### Deduplication preservation -/

theorem all_updateFirst {α} {p : α → Bool} {f : α → α} {q : α → Bool} {l : List α}
    (hl : l.all q = true) (hf : ∀ x, q x = true → q (f x) = true) :
    (updateFirst p f l).all q = true := by
  rw [List.all_eq_true] at hl ⊢
  intro x hx
  rcases mem_updateFirst hx with h | ⟨y, hy, _, hxy⟩
  · exact hl x h
  · rw [hxy]
    exact hf y (hl y hy)

theorem isNodeDedup_setBucket_addIfNew {isn : ISNode} {k : EKind} {e : Entry}
    (hd : isNodeDedup isn = true) :
    isNodeDedup (isn.setBucket k (addIfNew e (isn.bucket k))) = true := by
  cases k <;>
    (simp only [isNodeDedup, ISNode.setBucket, ISNode.bucket, Bool.and_eq_true] at hd ⊢
     obtain ⟨⟨h1, h2⟩, h3⟩ := hd)
  · exact ⟨⟨nodupIds_addIfNew h1, h2⟩, h3⟩
  · exact ⟨⟨h1, nodupIds_addIfNew h2⟩, h3⟩
  · exact ⟨⟨h1, h2⟩, nodupIds_addIfNew h3⟩

theorem isNodeDedup_fresh (isTop : ISys) (k : EKind) (e : Entry) :
    isNodeDedup ((createISNode isTop).setBucket k (addIfNew e [])) = true := by
  cases k <;> simp [createISNode, ISNode.setBucket, isNodeDedup, addIfNew, nodupIds]

theorem dgNodeDedup_place {d : DGNode} {dg : DGT} {k : EKind} {e : Entry}
    (hd : dgNodeDedup d = true) : dgNodeDedup (placeInDGNode dg k e d) = true := by
  unfold placeInDGNode
  split
  · split
    · simp only [dgNodeDedup, Bool.and_eq_true] at hd ⊢
      obtain ⟨⟨⟨h1, h2⟩, h3⟩, h4⟩ := hd
      exact ⟨⟨⟨h1, h2⟩, h3⟩, all_updateFirst h4 (fun x hx => isNodeDedup_setBucket_addIfNew hx)⟩
    · next isTop _ _ =>
      simp only [dgNodeDedup, Bool.and_eq_true] at hd ⊢
      obtain ⟨⟨⟨h1, h2⟩, h3⟩, h4⟩ := hd
      refine ⟨⟨⟨h1, h2⟩, h3⟩, ?_⟩
      rw [List.all_append]
      simp only [Bool.and_eq_true]
      refine ⟨h4, ?_⟩
      simp only [List.all_cons, List.all_nil, Bool.and_true]
      exact isNodeDedup_fresh isTop k e
  · cases k <;>
      (simp only [dgNodeDedup, DGNode.setUaBucket, DGNode.uaBucket, Bool.and_eq_true]
        at hd ⊢
       obtain ⟨⟨⟨h1, h2⟩, h3⟩, h4⟩ := hd)
    · exact ⟨⟨⟨nodupIds_addIfNew h1, h2⟩, h3⟩, h4⟩
    · exact ⟨⟨⟨h1, nodupIds_addIfNew h2⟩, h3⟩, h4⟩
    · exact ⟨⟨⟨h1, h2⟩, nodupIds_addIfNew h3⟩, h4⟩

theorem dgNodeDedup_createDGNode (dg : DGT) : dgNodeDedup (createDGNode dg) = true := by
  simp [dgNodeDedup, createDGNode, nodupIds]

theorem reportDedup_placeEntity {r : Report} {k : EKind} {dg : DGT} {e : Entry}
    (hr : reportDedup r = true) : reportDedup (placeEntity k dg e r) = true := by
  unfold placeEntity
  split
  · unfold reportDedup at hr ⊢
    exact all_updateFirst hr (fun x hx => dgNodeDedup_place hx)
  · exact hr

theorem reportDedup_ensureDGs {dgl : List DGT} {r : Report}
    (hr : reportDedup r = true) : reportDedup (ensureDGs dgl r) = true := by
  induction dgl generalizing r with
  | nil => exact hr
  | cons d t ih =>
    rw [ensureDGs_cons]
    refine ih ?_
    split
    · exact hr
    · unfold reportDedup at hr ⊢
      rw [List.all_append]
      simp only [Bool.and_eq_true]
      refine ⟨hr, ?_⟩
      simp only [List.all_cons, List.all_nil, Bool.and_true]
      exact dgNodeDedup_createDGNode d

theorem reportDedup_placeFold {k : EKind} {mk : DGT → Entry} {l : List DGT} {r : Report}
    (hr : reportDedup r = true) : reportDedup (placeFold k mk l r) = true := by
  induction l generalizing r with
  | nil => exact hr
  | cons d t ih =>
    rw [placeFold_cons]
    exact ih (reportDedup_placeEntity hr)

theorem reportDedup_processResource (cfg : Config) (ud : UsageData) (res : Resource)
    (st : RState) (hr : reportDedup st.report = true) :
    reportDedup (processResource cfg ud res st).report = true := by
  cases res with
  | host h =>
    show reportDedup (processHost cfg ud h st).report = true
    rw [processHost_eq]
    exact reportDedup_placeFold (reportDedup_ensureDGs hr)
  | app a =>
    show reportDedup (processApplication cfg ud a st).report = true
    unfold processApplication
    split
    · exact hr
    · exact reportDedup_placeFold (reportDedup_ensureDGs hr)
  | syn s =>
    show reportDedup (processSynthetic cfg ud s st).report = true
    unfold processSynthetic
    split
    · exact hr
    · exact reportDedup_placeFold (reportDedup_ensureDGs hr)

/-! ### Lemmas about the unassigned-entity handler -/

theorem unassignedStep_inv {base : List String} {m : UType} {q : DGNode × List String}
    {rec : URec}
    (h1 : q.1.information_systems = [])
    (h2 : ∀ y, base.contains y = true → q.2.contains y = true)
    (h3 : ∀ k, nodupIds (q.1.uaBucket k) = true)
    (h4 : ∀ k e, e ∈ q.1.uaBucket k →
      q.2.contains e.dt_id = true ∧ base.contains e.dt_id = false) :
    (unassignedStep m q rec).1.information_systems = [] ∧
    (∀ y, base.contains y = true → (unassignedStep m q rec).2.contains y = true) ∧
    (∀ k, nodupIds ((unassignedStep m q rec).1.uaBucket k) = true) ∧
    (∀ k e, e ∈ (unassignedStep m q rec).1.uaBucket k →
      (unassignedStep m q rec).2.contains e.dt_id = true ∧
        base.contains e.dt_id = false) := by
  unfold unassignedStep
  by_cases hc : q.2.contains rec.dt_id = true
  · rw [if_pos hc]
    exact ⟨h1, h2, h3, h4⟩
  · rw [if_neg hc]
    have hbase : base.contains rec.dt_id = false := by
      cases hb : base.contains rec.dt_id with
      | false => rfl
      | true => exact absurd (h2 rec.dt_id hb) hc
    refine ⟨?_, ?_, ?_, ?_⟩
    · rw [iss_setUaBucket]
      exact h1
    · intro y hy
      exact insertProcessed_mono (h2 y hy)
    · intro k
      by_cases hk : k = determineEntityType m
      · subst hk
        rw [uaBucket_setUaBucket_self]
        refine nodupIds_append_one (h3 _) ?_
        rw [List.any_eq_false]
        intro e he hcon
        have := (h4 _ e he).1
        have heq : e.dt_id = rec.dt_id := by simpa [unassignedEntry] using hcon
        rw [heq] at this
        exact hc this
      · rw [uaBucket_setUaBucket_other hk]
        exact h3 k
    · intro k e he
      by_cases hk : k = determineEntityType m
      · subst hk
        rw [uaBucket_setUaBucket_self] at he
        rcases List.mem_append.mp he with h | h
        · exact ⟨insertProcessed_mono (h4 _ e h).1, (h4 _ e h).2⟩
        · rw [List.mem_singleton.mp h]
          exact ⟨insertProcessed_contains _ _, hbase⟩
      · rw [uaBucket_setUaBucket_other hk] at he
        exact ⟨insertProcessed_mono (h4 k e he).1, (h4 k e he).2⟩

theorem unassignedFoldInner_inv {base : List String} {m : UType} {recs : List URec}
    {q : DGNode × List String}
    (h1 : q.1.information_systems = [])
    (h2 : ∀ y, base.contains y = true → q.2.contains y = true)
    (h3 : ∀ k, nodupIds (q.1.uaBucket k) = true)
    (h4 : ∀ k e, e ∈ q.1.uaBucket k →
      q.2.contains e.dt_id = true ∧ base.contains e.dt_id = false) :
    (recs.foldl (unassignedStep m) q).1.information_systems = [] ∧
    (∀ y, base.contains y = true → (recs.foldl (unassignedStep m) q).2.contains y = true) ∧
    (∀ k, nodupIds ((recs.foldl (unassignedStep m) q).1.uaBucket k) = true) ∧
    (∀ k e, e ∈ (recs.foldl (unassignedStep m) q).1.uaBucket k →
      (recs.foldl (unassignedStep m) q).2.contains e.dt_id = true ∧
        base.contains e.dt_id = false) := by
  induction recs generalizing q with
  | nil => exact ⟨h1, h2, h3, h4⟩
  | cons rec t ih =>
    rw [List.foldl_cons]
    obtain ⟨g1, g2, g3, g4⟩ := @unassignedStep_inv base m q rec h1 h2 h3 h4
    exact ih g1 g2 g3 g4

theorem unassignedFoldOuter_inv {base : List String} {data : List (UType × List URec)}
    {q : DGNode × List String}
    (h1 : q.1.information_systems = [])
    (h2 : ∀ y, base.contains y = true → q.2.contains y = true)
    (h3 : ∀ k, nodupIds (q.1.uaBucket k) = true)
    (h4 : ∀ k e, e ∈ q.1.uaBucket k →
      q.2.contains e.dt_id = true ∧ base.contains e.dt_id = false) :
    (data.foldl (fun qq p => p.2.foldl (unassignedStep p.1) qq) q).1.information_systems
      = [] ∧
    (∀ y, base.contains y = true →
      (data.foldl (fun qq p => p.2.foldl (unassignedStep p.1) qq) q).2.contains y = true) ∧
    (∀ k, nodupIds
      ((data.foldl (fun qq p => p.2.foldl (unassignedStep p.1) qq) q).1.uaBucket k)
        = true) ∧
    (∀ k e, e ∈ (data.foldl (fun qq p => p.2.foldl (unassignedStep p.1) qq) q).1.uaBucket k →
      (data.foldl (fun qq p => p.2.foldl (unassignedStep p.1) qq) q).2.contains e.dt_id
        = true ∧ base.contains e.dt_id = false) := by
  induction data generalizing q with
  | nil => exact ⟨h1, h2, h3, h4⟩
  | cons p t ih =>
    rw [List.foldl_cons]
    obtain ⟨g1, g2, g3, g4⟩ := @unassignedFoldInner_inv base p.1 p.2 q h1 h2 h3 h4
    exact ih g1 g2 g3 g4

theorem processUnassigned_dedup {data : List (UType × List URec)} {st : RState}
    (hr : reportDedup st.report = true) :
    reportDedup (processUnassigned data st).report = true := by
  unfold processUnassigned
  have hinv := @unassignedFoldOuter_inv st.processed data
    (⟨0, "Unassigned", [], [], [], [], Totals.zero⟩, st.processed)
    rfl (fun y hy => hy) (fun k => by cases k <;> rfl)
    (fun k e he => by cases k <;> simp [DGNode.uaBucket] at he)
  obtain ⟨g1, _, g3, _⟩ := hinv
  unfold reportDedup at hr ⊢
  rw [List.all_append]
  simp only [Bool.and_eq_true]
  refine ⟨hr, ?_⟩
  simp only [List.all_cons, List.all_nil, Bool.and_true]
  unfold dgNodeDedup
  simp only [Bool.and_eq_true]
  refine ⟨⟨⟨g3 EKind.hosts, g3 EKind.applications⟩, g3 EKind.synthetics⟩, ?_⟩
  rw [g1]
  rfl

theorem processUnassigned_no_old {data : List (UType × List URec)} {st : RState} :
    ∀ n k e, entryUnder (processUnassigned data st).report n k e →
      entryUnder st.report n k e ∨ st.processed.contains e.dt_id = false := by
  intro n k e he
  unfold processUnassigned at he
  obtain ⟨d, hd, hname, hin⟩ := he
  rcases List.mem_append.mp hd with h | h
  · exact Or.inl ⟨d, h, hname, hin⟩
  · rw [List.mem_singleton.mp h] at hin
    have hinv := @unassignedFoldOuter_inv st.processed data
      (⟨0, "Unassigned", [], [], [], [], Totals.zero⟩, st.processed)
      rfl (fun y hy => hy) (fun k => by cases k <;> rfl)
      (fun k e he => by cases k <;> simp [DGNode.uaBucket] at he)
    obtain ⟨g1, _, _, g4⟩ := hinv
    rcases hin with hua | ⟨isn, hisn, _⟩
    · exact Or.inr (g4 k e hua).2
    · rw [g1] at hisn
      simp at hisn

/-! ### Claim theorems -/

/-- C7: a resource identity occurs at most once in any single sub-group
bucket or unassigned-in-unit bucket (the dedup property is preserved by
every processor and by the unassigned handler), processing the same
resource a second time leaves the whole state — and hence the computed
totals — unchanged, and the unassigned handler only adds entries whose
identity is not already in the process-wide dedup set. -/
theorem C7_dedup_idempotent (cfg : Config) (ud : UsageData) (res : Resource)
    (st : RState) (data : List (UType × List URec)) :
    (reportDedup st.report = true →
      reportDedup (processResource cfg ud res st).report = true) ∧
    processResource cfg ud res (processResource cfg ud res st) =
      processResource cfg ud res st ∧
    calculate_totals (processResource cfg ud res
        (processResource cfg ud res st)).report =
      calculate_totals (processResource cfg ud res st).report ∧
    (reportDedup st.report = true →
      reportDedup (processUnassigned data st).report = true) ∧
    (∀ n k e, entryUnder (processUnassigned data st).report n k e →
      entryUnder st.report n k e ∨ st.processed.contains e.dt_id = false) :=
  ⟨fun hr => reportDedup_processResource cfg ud res st hr,
   processResource_idem cfg ud res st,
   by rw [processResource_idem],
   fun hr => processUnassigned_dedup hr,
   processUnassigned_no_old⟩

/-- Witness for C7 at a concrete host, state and handler input. -/
theorem C7_dedup_idempotent_witness :
    reportDedup st0.report = true ∧
    reportDedup (processResource cfgOff udEmpty (Resource.host exHostW) st0).report
      = true ∧
    reportDedup (processUnassigned [] st0).report = true :=
  ⟨by decide,
   (C7_dedup_idempotent cfgOff udEmpty (Resource.host exHostW) st0 []).1 (by decide),
   (C7_dedup_idempotent cfgOff udEmpty (Resource.host exHostW) st0 []).2.2.2.1
     (by decide)⟩

theorem processApplication_eq {cfg : Config} {ud : UsageData} {a : App} {st : RState}
    (h : st.processed.contains a.dt_id = false) :
    processApplication cfg ud a st =
      { report := placeFold EKind.applications (appEntry ud a)
          (if cfg.include_non_charged_entities_in_dg then a.dgs else appChargedDGs a)
          (ensureDGs a.dgs st.report)
        processed := insertProcessed st.processed a.dt_id } := by
  unfold processApplication
  rw [if_neg (by rw [h]; simp)]

theorem processSynthetic_eq {cfg : Config} {ud : UsageData} {s : Syn} {st : RState}
    (h : st.processed.contains s.dt_id = false) :
    processSynthetic cfg ud s st =
      { report := placeFold EKind.synthetics (synEntry ud s)
          (if cfg.include_non_charged_entities_in_dg then s.dgs else synChargedDGs s)
          (ensureDGs s.dgs st.report)
        processed := insertProcessed st.processed s.dt_id } := by
  unfold processSynthetic
  rw [if_neg (by rw [h]; simp)]

theorem noIdUnder_of_empty {n : String} {k : EKind} {x : String} {dgl : List DGT} :
    noIdUnder (ensureDGs dgl st0.report) n k x := by
  intro e he
  have h2 := entryUnder_ensureDGs.mp he
  obtain ⟨d, hd, _, _⟩ := h2
  simp [st0, emptyReport] at hd

/-- C10: every resource with a non-empty tagged-DG list (as is the case for
every entity reached through a DG membership list) has a non-empty
charged-DG list, so the usage distribution never divides by zero and the
first-processed-DG redirect target is well defined. -/
theorem C10_charged_nonempty (res : Resource) (h : res.dgs ≠ []) :
    0 < res.charged.length := by
  cases res with
  | host hh =>
    show 0 < (hostChargedDGs hh).length
    have hlen : 0 < hh.dgs.length := List.length_pos.mpr h
    unfold hostChargedDGs
    split
    · split
      · simp
      · rw [List.length_take]
        omega
    · exact hlen
  | app aa =>
    show 0 < (appChargedDGs aa).length
    have hlen : 0 < aa.dgs.length := List.length_pos.mpr h
    unfold appChargedDGs
    split
    · next hany =>
      split
      · simp
      · next hfd =>
        rw [List.find?_eq_none] at hfd
        obtain ⟨x, hx, hp⟩ := List.any_eq_true.mp hany
        exact absurd hp (hfd x hx)
    · exact hlen
  | syn ss =>
    show 0 < (synChargedDGs ss).length
    have hlen : 0 < ss.dgs.length := List.length_pos.mpr h
    unfold synChargedDGs
    split
    · next hany =>
      split
      · simp
      · next hfd =>
        rw [List.find?_eq_none] at hfd
        obtain ⟨x, hx, hp⟩ := List.any_eq_true.mp hany
        exact absurd hp (hfd x hx)
    · exact hlen

/-- Witness for C10 at a concrete host. -/
theorem C10_charged_nonempty_witness :
    (Resource.host exHostW).dgs ≠ [] ∧ 0 < (Resource.host exHostW).charged.length :=
  ⟨by decide, C10_charged_nonempty (Resource.host exHostW) (by decide)⟩

/-- C1 (code-bug evidence): a non-billable resource is not redirected to the
fallback unit `DIGIT C`.  The application `exApp1` belongs to a managed IS
(hence is not billable) and is tagged only to `AGRI`: its charged DGs are
`[AGRI]`, and its full RUM usage record is placed (with `billed = false`)
under `AGRI`; likewise the unmonitored host `exHostOff` is charged to its
first tagged DG `ALPHA`, not to `DIGIT C`. -/
theorem C1_nonbillable_not_redirected :
    app_is_billable exApp1 = false ∧
    appChargedDGs exApp1 = [dgAgri] ∧
    dgAgri.name ≠ "DIGIT C" ∧
    host_is_billable exHostOff = false ∧
    hostChargedDGs exHostOff = [dgAlpha] ∧
    dgAlpha.name ≠ "DIGIT C" ∧
    (appEntry udC1 exApp1 dgAgri).billed = false ∧
    (appEntry udC1 exApp1 dgAgri).usage.rum = 100 ∧
    entryUnder (processApplication cfgOff udC1 exApp1 st0).report "AGRI"
      EKind.applications (appEntry udC1 exApp1 dgAgri) := by
  have hch : appChargedDGs exApp1 = [dgAgri] := by decide
  refine ⟨by decide, hch, by decide, by decide, by decide, by decide, by decide, ?_, ?_⟩
  · show (appEntry udC1 exApp1 dgAgri).usage.rum = 100
    simp only [appEntry, hch]
    norm_num [lookupQ, udC1, exApp1]
  · rw [processApplication_eq (by decide)]
    show entryUnder (placeFold EKind.applications (appEntry udC1 exApp1)
      (if cfgOff.include_non_charged_entities_in_dg then exApp1.dgs
        else appChargedDGs exApp1)
      (ensureDGs exApp1.dgs st0.report)) "AGRI" EKind.applications
      (appEntry udC1 exApp1 dgAgri)
    have hif : (if cfgOff.include_non_charged_entities_in_dg then exApp1.dgs
        else appChargedDGs exApp1) = [dgAgri] := by
      rw [if_neg (by decide), hch]
    rw [hif]
    exact placeFold_establish (x := "APP-1") (fun dg => rfl) (by simp)
      (fun dg hdg => ensureDGs_has dg hdg)
      (fun dg hdg => noIdUnder_of_empty)
      dgAgri (List.mem_singleton_self _)

theorem not_entryUnder_st0 {n : String} {k : EKind} {e : Entry} :
    ¬ entryUnder st0.report n k e := by
  rintro ⟨d, hd, _, _⟩
  simp [st0, emptyReport] at hd

theorem appEntryAgri_placed :
    entryUnder (processApplication cfgOff udC1 exApp1 st0).report "AGRI"
      EKind.applications (appEntry udC1 exApp1 dgAgri) := by
  rw [processApplication_eq (by decide)]
  show entryUnder (placeFold EKind.applications (appEntry udC1 exApp1)
    (if cfgOff.include_non_charged_entities_in_dg then exApp1.dgs
      else appChargedDGs exApp1)
    (ensureDGs exApp1.dgs st0.report)) "AGRI" EKind.applications
    (appEntry udC1 exApp1 dgAgri)
  have hif : (if cfgOff.include_non_charged_entities_in_dg then exApp1.dgs
      else appChargedDGs exApp1) = [dgAgri] := by
    rw [if_neg (by decide)]
    decide
  rw [hif]
  exact placeFold_establish (x := "APP-1") (fun dg => rfl) (by simp)
    (fun dg hdg => ensureDGs_has dg hdg)
    (fun dg hdg => noIdUnder_of_empty)
    dgAgri (List.mem_singleton_self _)

theorem appEntryAgri_rum : (appEntry udC1 exApp1 dgAgri).usage.rum = 100 := by
  have hch : appChargedDGs exApp1 = [dgAgri] := by decide
  simp only [appEntry, hch]
  norm_num [lookupQ, udC1, exApp1]

/-- C5 counterexample: the FULL_STACK host `exHostFs` has zero raw fullstack
usage and raw INFRASTRUCTURE usage 5, and the report entry produced for it
carries distributed INFRASTRUCTURE usage 5, not 0 — tier mutual exclusivity
is keyed on the raw fullstack quantity, not on the monitoring tier. -/
theorem C5_fullstack_host_infra_counterexample :
    exHostFs.monitoring_mode = "FULL_STACK" ∧
    lookupQ udC5.infra exHostFs.dt_id = 5 ∧
    lookupQ udC5.fullstack exHostFs.dt_id = 0 ∧
    entryUnder (processHost cfgOff udC5 exHostFs st0).report "ALPHA" EKind.hosts
      (hostEntry udC5 exHostFs dgAlpha) ∧
    (hostEntry udC5 exHostFs dgAlpha).usage.infra = 5 ∧
    (hostEntry udC5 exHostFs dgAlpha).usage.infra ≠ 0 := by
  have hch : hostChargedDGs exHostFs = [dgAlpha] := by decide
  have hinf : (hostEntry udC5 exHostFs dgAlpha).usage.infra = 5 := by
    simp only [hostEntry, hostUsage, hch]
    norm_num [lookupQ, udC5, exHostFs]
  refine ⟨rfl, by norm_num [lookupQ, udC5, exHostFs], by norm_num [lookupQ, udC5, exHostFs],
    ?_, hinf, by rw [hinf]; norm_num⟩
  rw [processHost_eq]
  have hif : (if cfgOff.include_non_charged_entities_in_dg then exHostFs.dgs
      else hostChargedDGs exHostFs) = [dgAlpha] := by
    rw [if_neg (by decide)]
    exact hch
  rw [hif]
  exact placeFold_establish (x := "H-FS") (fun dg => rfl) (by decide)
    (fun dg hdg => ensureDGs_has dg hdg)
    (fun dg hdg => noIdUnder_of_empty)
    dgAlpha (List.mem_singleton_self _)

/-- C5 (amended): for every host whose raw FULL_STACK usage is non-zero,
every entry newly produced for it by `_process_host` carries zero
distributed INFRASTRUCTURE usage (the exclusivity gate is the raw fullstack
quantity, not the tier attribute). -/
theorem C5_infra_zero_when_fullstack_nonzero (cfg : Config) (ud : UsageData)
    (h : Host) (st : RState) (n : String) (e : Entry)
    (hfs : lookupQ ud.fullstack h.dt_id ≠ 0)
    (hin : entryUnder (processHost cfg ud h st).report n EKind.hosts e)
    (hnew : ¬ entryUnder st.report n EKind.hosts e) :
    e.usage.infra = 0 := by
  rw [processHost_eq] at hin
  rcases placeFold_new hin with hold | ⟨dg, _, _, hxe, _⟩
  · exact absurd (entryUnder_ensureDGs.mp hold) hnew
  · rw [hxe]
    simp only [hostEntry, hostUsage]
    rw [if_neg (by rintro ⟨_, hz⟩; exact hfs hz)]

/-- Witness for the amended C5 at a concrete host with non-zero raw
fullstack usage. -/
theorem C5_infra_zero_witness :
    lookupQ udC2.fullstack exHostC2.dt_id ≠ 0 ∧
    (hostEntry udC2 exHostC2 dgAlpha).usage.infra = 0 := by
  have hch : hostChargedDGs exHostC2 = [dgAlpha, dgBeta] := by decide
  have hfs : lookupQ udC2.fullstack exHostC2.dt_id ≠ 0 := by
    norm_num [lookupQ, udC2, exHostC2]
  have hplaced : entryUnder (processHost cfgOff udC2 exHostC2 st0).report "ALPHA"
      EKind.hosts (hostEntry udC2 exHostC2 dgAlpha) := by
    rw [processHost_eq]
    have hif : (if cfgOff.include_non_charged_entities_in_dg then exHostC2.dgs
        else hostChargedDGs exHostC2) = [dgAlpha, dgBeta] := by
      rw [if_neg (by decide)]
      exact hch
    rw [hif]
    exact placeFold_establish (x := "H-C2") (fun dg => rfl) (by decide)
      (fun dg hdg => ensureDGs_has dg hdg)
      (fun dg hdg => noIdUnder_of_empty)
      dgAlpha (by decide)
  exact ⟨hfs, C5_infra_zero_when_fullstack_nonzero cfgOff udC2 exHostC2 st0 "ALPHA"
    (hostEntry udC2 exHostC2 dgAlpha) hfs hplaced not_entryUnder_st0⟩

/-- C6 counterexample: the non-billable application `exApp1` (member of a
managed IS) with raw RUM usage 100 gets a report entry under `AGRI` whose
stored distributed RUM quantity is 100, not 0; only its `billed` flag is
false. -/
theorem C6_nonbillable_nonzero_usage_counterexample :
    app_is_billable exApp1 = false ∧
    entryUnder (processApplication cfgOff udC1 exApp1 st0).report "AGRI"
      EKind.applications (appEntry udC1 exApp1 dgAgri) ∧
    (appEntry udC1 exApp1 dgAgri).usage.rum = 100 ∧
    (appEntry udC1 exApp1 dgAgri).usage.rum ≠ 0 := by
  refine ⟨by decide, appEntryAgri_placed, appEntryAgri_rum, ?_⟩
  rw [appEntryAgri_rum]
  norm_num

/-- C6 (amended): every entry newly produced for a non-billable resource has
`billed = false`, so its stored quantities are excluded from every billed
usage total; the stored distributed quantities themselves are not zeroed. -/
theorem C6_nonbillable_entries_unbilled (cfg : Config) (ud : UsageData)
    (res : Resource) (st : RState) (n : String) (e : Entry)
    (hbill : res.billable = false)
    (hin : entryUnder (processResource cfg ud res st).report n res.kind e)
    (hnew : ¬ entryUnder st.report n res.kind e) :
    e.billed = false := by
  cases res with
  | host h =>
    rw [show processResource cfg ud (Resource.host h) st = processHost cfg ud h st
      from rfl, processHost_eq] at hin
    rcases placeFold_new hin with hold | ⟨dg, _, _, hxe, _⟩
    · exact absurd (entryUnder_ensureDGs.mp hold) hnew
    · rw [hxe]
      show (host_is_billable h && decide (dg ∈ hostChargedDGs h)) = false
      rw [show host_is_billable h = false from hbill]
      rfl
  | app a =>
    cases hc : st.processed.contains a.dt_id with
    | true =>
      rw [show processResource cfg ud (Resource.app a) st =
        processApplication cfg ud a st from rfl, processApplication_skip hc] at hin
      exact absurd hin hnew
    | false =>
      rw [show processResource cfg ud (Resource.app a) st =
        processApplication cfg ud a st from rfl, processApplication_eq hc] at hin
      rcases placeFold_new hin with hold | ⟨dg, _, _, hxe, _⟩
      · exact absurd (entryUnder_ensureDGs.mp hold) hnew
      · rw [hxe]
        exact hbill
  | syn ss =>
    cases hc : st.processed.contains ss.dt_id with
    | true =>
      rw [show processResource cfg ud (Resource.syn ss) st =
        processSynthetic cfg ud ss st from rfl, processSynthetic_skip hc] at hin
      exact absurd hin hnew
    | false =>
      rw [show processResource cfg ud (Resource.syn ss) st =
        processSynthetic cfg ud ss st from rfl, processSynthetic_eq hc] at hin
      rcases placeFold_new hin with hold | ⟨dg, _, _, hxe, _⟩
      · exact absurd (entryUnder_ensureDGs.mp hold) hnew
      · rw [hxe]
        exact hbill

/-- Witness for the amended C6 at the concrete non-billable application. -/
theorem C6_nonbillable_entries_unbilled_witness :
    (Resource.app exApp1).billable = false ∧
    (appEntry udC1 exApp1 dgAgri).billed = false :=
  ⟨by decide,
   C6_nonbillable_entries_unbilled cfgOff udC1 (Resource.app exApp1) st0 "AGRI"
     (appEntry udC1 exApp1 dgAgri) (by decide) appEntryAgri_placed not_entryUnder_st0⟩

theorem charged_names_of_digitC {res : Resource}
    (hC : (res.dgs.any fun dg => dg.name == "DIGIT C") = true) :
    res.charged.map (fun d => d.name) = ["DIGIT C"] := by
  cases res with
  | host hh =>
    have hC2 : (hh.dgs.any fun dg => dg.name == "DIGIT C") = true := hC
    show (hostChargedDGs hh).map (fun d => d.name) = ["DIGIT C"]
    unfold hostChargedDGs
    rw [if_pos (by rw [hC2]; rfl)]
    have hsome : (hh.dgs.find? (fun dg => dg.name == "DIGIT C")).isSome := by
      rw [List.find?_isSome]
      exact List.any_eq_true.mp hC
    obtain ⟨dgc, hfd⟩ := Option.isSome_iff_exists.mp hsome
    rw [hfd]
    have hname : dgc.name = "DIGIT C" := by simpa using List.find?_some hfd
    simp [hname]
  | app aa =>
    have hC2 : (aa.dgs.any fun dg => dg.name == "DIGIT C") = true := hC
    show (appChargedDGs aa).map (fun d => d.name) = ["DIGIT C"]
    unfold appChargedDGs
    rw [if_pos hC2]
    have hsome : (aa.dgs.find? (fun dg => dg.name == "DIGIT C")).isSome := by
      rw [List.find?_isSome]
      exact List.any_eq_true.mp hC
    obtain ⟨dgc, hfd⟩ := Option.isSome_iff_exists.mp hsome
    rw [hfd]
    have hname : dgc.name = "DIGIT C" := by simpa using List.find?_some hfd
    simp [hname]
  | syn ss =>
    have hC2 : (ss.dgs.any fun dg => dg.name == "DIGIT C") = true := hC
    show (synChargedDGs ss).map (fun d => d.name) = ["DIGIT C"]
    unfold synChargedDGs
    rw [if_pos hC2]
    have hsome : (ss.dgs.find? (fun dg => dg.name == "DIGIT C")).isSome := by
      rw [List.find?_isSome]
      exact List.any_eq_true.mp hC
    obtain ⟨dgc, hfd⟩ := Option.isSome_iff_exists.mp hsome
    rw [hfd]
    have hname : dgc.name = "DIGIT C" := by simpa using List.find?_some hfd
    simp [hname]

theorem name_digitC_of_mem_charged {res : Resource} {dg : DGT}
    (hC : (res.dgs.any fun dgg => dgg.name == "DIGIT C") = true)
    (hdg : dg ∈ res.charged) : dg.name = "DIGIT C" := by
  have h1 : dg.name ∈ res.charged.map (fun d => d.name) :=
    List.mem_map_of_mem (fun d => d.name) hdg
  rw [charged_names_of_digitC hC] at h1
  exact List.mem_singleton.mp h1

/-- C4 (amended): when the fallback DG `DIGIT C` is among a resource's
tagged DGs, the charged DGs are exactly the tagged `DIGIT C` member, and
every entry newly placed under a DG with another name carries zero billed
usage: for hosts the entry is marked `billed = false` (while displaying the
distributed quantity), for applications and synthetics the entry is an
all-zero usage placeholder. -/
theorem C4_fallback_precedence (cfg : Config) (ud : UsageData) (res : Resource)
    (st : RState)
    (hC : (res.dgs.any fun dg => dg.name == "DIGIT C") = true) :
    res.charged.map (fun d => d.name) = ["DIGIT C"] ∧
    (∀ n e, n ≠ "DIGIT C" →
      entryUnder (processResource cfg ud res st).report n res.kind e →
      ¬ entryUnder st.report n res.kind e →
      e.billed = false ∨ e.usage = Usage.zero) := by
  refine ⟨charged_names_of_digitC hC, ?_⟩
  intro n e hn hin hnew
  have hnotin : ∀ dg : DGT, dg.name = n → dg ∉ res.charged := by
    intro dg hname hdg
    exact hn (hname ▸ name_digitC_of_mem_charged hC hdg)
  cases res with
  | host h =>
    rw [show processResource cfg ud (Resource.host h) st = processHost cfg ud h st
      from rfl, processHost_eq] at hin
    rcases placeFold_new hin with hold | ⟨dg, _, hname, hxe, _⟩
    · exact absurd (entryUnder_ensureDGs.mp hold) hnew
    · refine Or.inl ?_
      rw [hxe]
      show (host_is_billable h && decide (dg ∈ hostChargedDGs h)) = false
      have hni : dg ∉ hostChargedDGs h := hnotin dg hname.symm
      rw [decide_eq_false hni, Bool.and_false]
  | app a =>
    cases hc : st.processed.contains a.dt_id with
    | true =>
      rw [show processResource cfg ud (Resource.app a) st =
        processApplication cfg ud a st from rfl, processApplication_skip hc] at hin
      exact absurd hin hnew
    | false =>
      rw [show processResource cfg ud (Resource.app a) st =
        processApplication cfg ud a st from rfl, processApplication_eq hc] at hin
      rcases placeFold_new hin with hold | ⟨dg, _, hname, hxe, _⟩
      · exact absurd (entryUnder_ensureDGs.mp hold) hnew
      · refine Or.inr ?_
        rw [hxe]
        show (if dg ∈ appChargedDGs a then _ else Usage.zero) = Usage.zero
        rw [if_neg (show dg ∉ appChargedDGs a from hnotin dg hname.symm)]
  | syn ss =>
    cases hc : st.processed.contains ss.dt_id with
    | true =>
      rw [show processResource cfg ud (Resource.syn ss) st =
        processSynthetic cfg ud ss st from rfl, processSynthetic_skip hc] at hin
      exact absurd hin hnew
    | false =>
      rw [show processResource cfg ud (Resource.syn ss) st =
        processSynthetic cfg ud ss st from rfl, processSynthetic_eq hc] at hin
      rcases placeFold_new hin with hold | ⟨dg, _, hname, hxe, _⟩
      · exact absurd (entryUnder_ensureDGs.mp hold) hnew
      · refine Or.inr ?_
        rw [hxe]
        show (if dg ∈ synChargedDGs ss then _ else Usage.zero) = Usage.zero
        rw [if_neg (show dg ∉ synChargedDGs ss from hnotin dg hname.symm)]

/-- Witness for the amended C4 at a concrete host tagged to the fallback DG. -/
theorem C4_fallback_precedence_witness :
    ((Resource.host exHostC4).dgs.any fun dg => dg.name == "DIGIT C") = true ∧
    (Resource.host exHostC4).charged.map (fun d => d.name) = ["DIGIT C"] :=
  ⟨by decide,
   (C4_fallback_precedence cfgOn udC4 (Resource.host exHostC4) st0 (by decide)).1⟩

/-- C4 counterexample: with "include non-charged" enabled, the FULL_STACK
host `exHostC4`, tagged to `DIGIT C` and `ALPHA` with raw fullstack usage
100, gets a row under the non-charged DG `ALPHA` whose displayed fullstack
usage is 100 — not the zero-usage placeholder the claim describes. -/
theorem C4_nonzero_placeholder_counterexample :
    (exHostC4.dgs.any fun dg => dg.name == "DIGIT C") = true ∧
    cfgOn.include_non_charged_entities_in_dg = true ∧
    dgAlpha.name ≠ "DIGIT C" ∧
    entryUnder (processHost cfgOn udC4 exHostC4 st0).report "ALPHA" EKind.hosts
      (hostEntry udC4 exHostC4 dgAlpha) ∧
    (hostEntry udC4 exHostC4 dgAlpha).usage.fullstack = 100 ∧
    (hostEntry udC4 exHostC4 dgAlpha).usage.fullstack ≠ 0 := by
  have hch : hostChargedDGs exHostC4 = [dgDigitC] := by decide
  have hfs : (hostEntry udC4 exHostC4 dgAlpha).usage.fullstack = 100 := by
    simp only [hostEntry, hostUsage, hch]
    norm_num [lookupQ, udC4, exHostC4]
  refine ⟨by decide, rfl, by decide, ?_, hfs, by rw [hfs]; norm_num⟩
  rw [processHost_eq]
  have hif : (if cfgOn.include_non_charged_entities_in_dg then exHostC4.dgs
      else hostChargedDGs exHostC4) = [dgDigitC, dgAlpha] := by
    rw [if_pos (show cfgOn.include_non_charged_entities_in_dg = true from rfl)]
    rfl
  rw [hif]
  exact placeFold_establish (x := "H-C4") (fun dg => rfl) (by decide)
    (fun dg hdg => ensureDGs_has dg hdg)
    (fun dg hdg => noIdUnder_of_empty)
    dgAlpha (by decide)

/-- C8 (amended): with "include non-charged entities" enabled, every tagged
DG of a freshly processed resource receives an entry for it; in a
tagged-but-not-charged DG that entry is a zero-usage placeholder for
applications and synthetics, while for hosts it carries the distributed
quantities with `billed = false`; with the flag disabled, DGs that are not
charged receive no entry for the resource at all. -/
theorem C8_non_charged_placeholder (cfg : Config) (ud : UsageData) (res : Resource)
    (st : RState)
    (hnd : (res.dgs.map fun d => d.name).Nodup)
    (hfresh : ∀ n e, entryUnder st.report n res.kind e → e.dt_id ≠ res.dt_id)
    (hproc : st.processed.contains res.dt_id = false) :
    (cfg.include_non_charged_entities_in_dg = true →
      ∀ dg ∈ res.dgs, entryUnder (processResource cfg ud res st).report dg.name
        res.kind (resourceEntry ud res dg)) ∧
    (∀ dg ∈ res.dgs, dg ∉ res.charged →
      (match res with
        | .host h => (resourceEntry ud res dg).billed = false ∧
            (resourceEntry ud res dg).usage = hostUsage ud h (hostChargedDGs h).length
        | .app _ => (resourceEntry ud res dg).usage = Usage.zero
        | .syn _ => (resourceEntry ud res dg).usage = Usage.zero)) ∧
    (cfg.include_non_charged_entities_in_dg = false →
      ∀ n e, (∀ dg ∈ res.charged, dg.name ≠ n) →
        entryUnder (processResource cfg ud res st).report n res.kind e →
        e.dt_id ≠ res.dt_id) := by
  refine ⟨?_, ?_, ?_⟩
  · intro hflag dg hdg
    cases res with
    | host h =>
      rw [show processResource cfg ud (Resource.host h) st = processHost cfg ud h st
        from rfl, processHost_eq]
      rw [show (if cfg.include_non_charged_entities_in_dg then h.dgs
        else hostChargedDGs h) = h.dgs from if_pos hflag]
      exact placeFold_establish (x := h.dt_id) (fun dg2 => rfl) hnd
        (fun dg2 hdg2 => ensureDGs_has dg2 hdg2)
        (fun dg2 hdg2 e he => hfresh dg2.name e (entryUnder_ensureDGs.mp he))
        dg hdg
    | app a =>
      rw [show processResource cfg ud (Resource.app a) st =
        processApplication cfg ud a st from rfl, processApplication_eq hproc]
      rw [show (if cfg.include_non_charged_entities_in_dg then a.dgs
        else appChargedDGs a) = a.dgs from if_pos hflag]
      exact placeFold_establish (x := a.dt_id) (fun dg2 => rfl) hnd
        (fun dg2 hdg2 => ensureDGs_has dg2 hdg2)
        (fun dg2 hdg2 e he => hfresh dg2.name e (entryUnder_ensureDGs.mp he))
        dg hdg
    | syn ss =>
      rw [show processResource cfg ud (Resource.syn ss) st =
        processSynthetic cfg ud ss st from rfl, processSynthetic_eq hproc]
      rw [show (if cfg.include_non_charged_entities_in_dg then ss.dgs
        else synChargedDGs ss) = ss.dgs from if_pos hflag]
      exact placeFold_establish (x := ss.dt_id) (fun dg2 => rfl) hnd
        (fun dg2 hdg2 => ensureDGs_has dg2 hdg2)
        (fun dg2 hdg2 e he => hfresh dg2.name e (entryUnder_ensureDGs.mp he))
        dg hdg
  · intro dg hdg hne
    cases res with
    | host h =>
      refine ⟨?_, rfl⟩
      show (host_is_billable h && decide (dg ∈ hostChargedDGs h)) = false
      rw [decide_eq_false (show dg ∉ hostChargedDGs h from hne), Bool.and_false]
    | app a =>
      show (if dg ∈ appChargedDGs a then _ else Usage.zero) = Usage.zero
      rw [if_neg (show dg ∉ appChargedDGs a from hne)]
    | syn ss =>
      show (if dg ∈ synChargedDGs ss then _ else Usage.zero) = Usage.zero
      rw [if_neg (show dg ∉ synChargedDGs ss from hne)]
  · intro hflag n e hnames hin
    cases res with
    | host h =>
      rw [show processResource cfg ud (Resource.host h) st = processHost cfg ud h st
        from rfl, processHost_eq] at hin
      rw [show (if cfg.include_non_charged_entities_in_dg then h.dgs
        else hostChargedDGs h) = hostChargedDGs h from if_neg (by rw [hflag]; simp)]
        at hin
      rcases placeFold_new hin with hold | ⟨dg, hdg, hname, hxe, _⟩
      · exact hfresh n e (entryUnder_ensureDGs.mp hold)
      · exact absurd hname.symm (hnames dg hdg)
    | app a =>
      rw [show processResource cfg ud (Resource.app a) st =
        processApplication cfg ud a st from rfl, processApplication_eq hproc] at hin
      rw [show (if cfg.include_non_charged_entities_in_dg then a.dgs
        else appChargedDGs a) = appChargedDGs a from if_neg (by rw [hflag]; simp)]
        at hin
      rcases placeFold_new hin with hold | ⟨dg, hdg, hname, hxe, _⟩
      · exact hfresh n e (entryUnder_ensureDGs.mp hold)
      · exact absurd hname.symm (hnames dg hdg)
    | syn ss =>
      rw [show processResource cfg ud (Resource.syn ss) st =
        processSynthetic cfg ud ss st from rfl, processSynthetic_eq hproc] at hin
      rw [show (if cfg.include_non_charged_entities_in_dg then ss.dgs
        else synChargedDGs ss) = synChargedDGs ss from if_neg (by rw [hflag]; simp)]
        at hin
      rcases placeFold_new hin with hold | ⟨dg, hdg, hname, hxe, _⟩
      · exact hfresh n e (entryUnder_ensureDGs.mp hold)
      · exact absurd hname.symm (hnames dg hdg)

/-- Witness for the amended C8: the application `exApp2` tagged to
`DIGIT C` and `ALPHA`, processed with the flag enabled, yields an entry
under the non-charged DG `ALPHA`, and that entry is a zero-usage
placeholder. -/
theorem C8_non_charged_placeholder_witness :
    ((Resource.app exApp2).dgs.map fun d => d.name).Nodup ∧
    entryUnder (processResource cfgOn udEmpty (Resource.app exApp2) st0).report
      "ALPHA" EKind.applications (resourceEntry udEmpty (Resource.app exApp2) dgAlpha) ∧
    (resourceEntry udEmpty (Resource.app exApp2) dgAlpha).usage = Usage.zero := by
  have hthm := C8_non_charged_placeholder cfgOn udEmpty (Resource.app exApp2) st0
    (by decide) (fun n e he => absurd he not_entryUnder_st0) (by decide)
  exact ⟨by decide, hthm.1 rfl dgAlpha (by decide),
    hthm.2.1 dgAlpha (by decide) (by decide)⟩

/-- C8 counterexample: with the flag enabled, the INFRASTRUCTURE host
`exHostC8` (tagged `DIGIT C` and `BETA`, raw infra 60, charged only to
`DIGIT C`) gets an entry under the non-charged DG `BETA` whose stored infra
usage is 60, not the zero-usage placeholder the claim requires. -/
theorem C8_nonzero_placeholder_counterexample :
    cfgOn.include_non_charged_entities_in_dg = true ∧
    hostChargedDGs exHostC8 = [dgDigitC] ∧
    dgBeta ∉ hostChargedDGs exHostC8 ∧
    entryUnder (processHost cfgOn udC8 exHostC8 st0).report "BETA" EKind.hosts
      (hostEntry udC8 exHostC8 dgBeta) ∧
    (hostEntry udC8 exHostC8 dgBeta).usage.infra = 60 ∧
    (hostEntry udC8 exHostC8 dgBeta).usage.infra ≠ 0 := by
  have hch : hostChargedDGs exHostC8 = [dgDigitC] := by decide
  have hinf : (hostEntry udC8 exHostC8 dgBeta).usage.infra = 60 := by
    simp only [hostEntry, hostUsage, hch]
    norm_num [lookupQ, udC8, exHostC8]
  refine ⟨rfl, hch, by decide, ?_, hinf, by rw [hinf]; norm_num⟩
  rw [processHost_eq]
  have hif : (if cfgOn.include_non_charged_entities_in_dg then exHostC8.dgs
      else hostChargedDGs exHostC8) = [dgDigitC, dgBeta] := by
    rw [if_pos (show cfgOn.include_non_charged_entities_in_dg = true from rfl)]
    rfl
  rw [hif]
  exact placeFold_establish (x := "H-C8") (fun dg => rfl) (by decide)
    (fun dg hdg => ensureDGs_has dg hdg)
    (fun dg hdg => noIdUnder_of_empty)
    dgBeta (by decide)

theorem hostChargedDGs_eq_dgs {h : Host}
    (hno : (h.dgs.any fun dg => dg.name == "DIGIT C") = false)
    (hbill : host_is_billable h = true) (hne : h.dgs ≠ []) :
    hostChargedDGs h = h.dgs := by
  have hany : (h.dgs.any fun _ => host_is_billable h) = true := by
    obtain ⟨x, hx⟩ := List.exists_mem_of_ne_nil h.dgs hne
    exact List.any_eq_true.mpr ⟨x, hx, hbill⟩
  unfold hostChargedDGs
  rw [if_neg (by rw [hno, hany]; simp)]

theorem appChargedDGs_eq_dgs {a : App}
    (hno : (a.dgs.any fun dg => dg.name == "DIGIT C") = false) :
    appChargedDGs a = a.dgs := by
  unfold appChargedDGs
  rw [if_neg (by rw [hno]; simp)]

theorem synChargedDGs_eq_dgs {s : Syn}
    (hno : (s.dgs.any fun dg => dg.name == "DIGIT C") = false) :
    synChargedDGs s = s.dgs := by
  unfold synChargedDGs
  rw [if_neg (by rw [hno]; simp)]

theorem any_digitC_false_of_pair {A B : DGT} (hA : A.name ≠ "DIGIT C")
    (hB : B.name ≠ "DIGIT C") :
    (([A, B] : List DGT).any fun dg => dg.name == "DIGIT C") = false := by
  simp only [List.any_cons, List.any_nil, Bool.or_false, Bool.or_eq_false_iff]
  exact ⟨beq_eq_false_iff_ne.mpr hA, beq_eq_false_iff_ne.mpr hB⟩

/-- C2: a billable resource tagged to exactly two DGs `A` and `B` (neither
the fallback DG) with raw usage `X > 0` for an applicable metric `m` gets an
entry under `A` and under `B`, each with distributed quantity `X / 2` for
`m` and `billed = true`, and the two credited amounts sum exactly to `X`
(floats are modelled as exact rationals). -/
theorem C2_even_split (cfg : Config) (ud : UsageData) (res : Resource) (st : RState)
    (A B : DGT) (X : ℚ) (m : UType)
    (hdgs : res.dgs = [A, B])
    (hA : A.name ≠ "DIGIT C") (hB : B.name ≠ "DIGIT C") (hAB : A.name ≠ B.name)
    (hbill : res.billable = true)
    (happ : metricApplicable ud res m)
    (hraw : rawOf ud res m = X) (hX : 0 < X)
    (hfresh : ∀ n e, entryUnder st.report n res.kind e → e.dt_id ≠ res.dt_id)
    (hproc : st.processed.contains res.dt_id = false) :
    entryUnder (processResource cfg ud res st).report A.name res.kind
      (resourceEntry ud res A) ∧
    entryUnder (processResource cfg ud res st).report B.name res.kind
      (resourceEntry ud res B) ∧
    (resourceEntry ud res A).dt_id = res.dt_id ∧
    (resourceEntry ud res B).dt_id = res.dt_id ∧
    (resourceEntry ud res A).usage.get m = X / 2 ∧
    (resourceEntry ud res B).usage.get m = X / 2 ∧
    (resourceEntry ud res A).usage.get m + (resourceEntry ud res B).usage.get m = X ∧
    (resourceEntry ud res A).billed = true ∧
    (resourceEntry ud res B).billed = true := by
  have hnd : (res.dgs.map fun d => d.name).Nodup := by
    rw [hdgs]
    simp [hAB]
  cases res with
  | host h =>
    have hdgs2 : h.dgs = [A, B] := hdgs
    have hbill2 : host_is_billable h = true := hbill
    have hch : hostChargedDGs h = [A, B] := by
      rw [hostChargedDGs_eq_dgs (by rw [hdgs2]; exact any_digitC_false_of_pair hA hB)
        hbill2 (by rw [hdgs2]; simp), hdgs2]
    have hpdgs : (if cfg.include_non_charged_entities_in_dg then h.dgs
        else hostChargedDGs h) = [A, B] := by
      split
      · exact hdgs2
      · exact hch
    have hplace : ∀ dg ∈ [A, B], entryUnder (processHost cfg ud h st).report dg.name
        EKind.hosts (hostEntry ud h dg) := by
      intro dg hdg
      rw [processHost_eq, hpdgs]
      refine placeFold_establish (x := h.dt_id) (fun dg2 => rfl) (by rw [← hdgs2]; exact hnd)
        (fun dg2 hdg2 => ensureDGs_has dg2 (by rw [hdgs2]; exact hdg2))
        (fun dg2 hdg2 e he => hfresh dg2.name e (entryUnder_ensureDGs.mp he))
        dg hdg
    have hget : ∀ dg, (hostEntry ud h dg).usage.get m = X / 2 := by
      intro dg
      rcases happ with hm | ⟨hm, hfs0⟩
      · subst hm
        show (hostUsage ud h (hostChargedDGs h).length).fullstack = X / 2
        rw [hch]
        simp only [hostUsage]
        rw [show lookupQ ud.fullstack h.dt_id = X from hraw]
        rw [if_pos hX]
        norm_num
      · subst hm
        show (hostUsage ud h (hostChargedDGs h).length).infra = X / 2
        rw [hch]
        simp only [hostUsage]
        rw [show lookupQ ud.infra h.dt_id = X from hraw, hfs0]
        rw [if_pos ⟨hX, rfl⟩]
        norm_num
    have hbilled : ∀ dg ∈ [A, B], (hostEntry ud h dg).billed = true := by
      intro dg hdg
      show (host_is_billable h && decide (dg ∈ hostChargedDGs h)) = true
      rw [hbill2, hch, decide_eq_true (by exact hdg)]
      rfl
    refine ⟨hplace A (by simp), hplace B (by simp), rfl, rfl, hget A, hget B, ?_,
      hbilled A (by simp), hbilled B (by simp)⟩
    show (hostEntry ud h A).usage.get m + (hostEntry ud h B).usage.get m = X
    rw [hget A, hget B]
    exact add_halves X
  | app a =>
    have hdgs2 : a.dgs = [A, B] := hdgs
    have hbill2 : app_is_billable a = true := hbill
    have hch : appChargedDGs a = [A, B] := by
      rw [appChargedDGs_eq_dgs (by rw [hdgs2]; exact any_digitC_false_of_pair hA hB),
        hdgs2]
    have hpdgs : (if cfg.include_non_charged_entities_in_dg then a.dgs
        else appChargedDGs a) = [A, B] := by
      split
      · exact hdgs2
      · exact hch
    have hplace : ∀ dg ∈ [A, B], entryUnder (processApplication cfg ud a st).report
        dg.name EKind.applications (appEntry ud a dg) := by
      intro dg hdg
      rw [processApplication_eq hproc, hpdgs]
      refine placeFold_establish (x := a.dt_id) (fun dg2 => rfl) (by rw [← hdgs2]; exact hnd)
        (fun dg2 hdg2 => ensureDGs_has dg2 (by rw [hdgs2]; exact hdg2))
        (fun dg2 hdg2 e he => hfresh dg2.name e (entryUnder_ensureDGs.mp he))
        dg hdg
    have hget : ∀ dg ∈ [A, B], (appEntry ud a dg).usage.get m = X / 2 := by
      intro dg hdg
      show ((if dg ∈ appChargedDGs a then _ else Usage.zero) : Usage).get m = X / 2
      rw [if_pos (show dg ∈ appChargedDGs a by rw [hch]; exact hdg)]
      rcases happ with hm | hm
      · subst hm
        show (if lookupQ ud.rum a.dt_id > 0 then
          lookupQ ud.rum a.dt_id / ((appChargedDGs a).length : ℚ) else 0) = X / 2
        rw [show lookupQ ud.rum a.dt_id = X from hraw, if_pos hX, hch]
        norm_num
      · subst hm
        show (if lookupQ ud.rum_with_sr a.dt_id > 0 then
          lookupQ ud.rum_with_sr a.dt_id / ((appChargedDGs a).length : ℚ) else 0) = X / 2
        rw [show lookupQ ud.rum_with_sr a.dt_id = X from hraw, if_pos hX, hch]
        norm_num
    refine ⟨hplace A (by simp), hplace B (by simp), rfl, rfl, hget A (by simp),
      hget B (by simp), ?_, hbill2, hbill2⟩
    show (appEntry ud a A).usage.get m + (appEntry ud a B).usage.get m = X
    rw [hget A (by simp), hget B (by simp)]
    exact add_halves X
  | syn ss =>
    have hdgs2 : ss.dgs = [A, B] := hdgs
    have hbill2 : synthetic_is_billable ss = true := hbill
    have hch : synChargedDGs ss = [A, B] := by
      rw [synChargedDGs_eq_dgs (by rw [hdgs2]; exact any_digitC_false_of_pair hA hB),
        hdgs2]
    have hpdgs : (if cfg.include_non_charged_entities_in_dg then ss.dgs
        else synChargedDGs ss) = [A, B] := by
      split
      · exact hdgs2
      · exact hch
    have hplace : ∀ dg ∈ [A, B], entryUnder (processSynthetic cfg ud ss st).report
        dg.name EKind.synthetics (synEntry ud ss dg) := by
      intro dg hdg
      rw [processSynthetic_eq hproc, hpdgs]
      refine placeFold_establish (x := ss.dt_id) (fun dg2 => rfl) (by rw [← hdgs2]; exact hnd)
        (fun dg2 hdg2 => ensureDGs_has dg2 (by rw [hdgs2]; exact hdg2))
        (fun dg2 hdg2 e he => hfresh dg2.name e (entryUnder_ensureDGs.mp he))
        dg hdg
    have hget : ∀ dg ∈ [A, B], (synEntry ud ss dg).usage.get m = X / 2 := by
      intro dg hdg
      show ((if dg ∈ synChargedDGs ss then _ else Usage.zero) : Usage).get m = X / 2
      rw [if_pos (show dg ∈ synChargedDGs ss by rw [hch]; exact hdg)]
      rcases happ with hm | hm | hm
      · subst hm
        show (if lookupQ ud.browser_monitor ss.dt_id > 0 then
          lookupQ ud.browser_monitor ss.dt_id / ((synChargedDGs ss).length : ℚ)
            else 0) = X / 2
        rw [show lookupQ ud.browser_monitor ss.dt_id = X from hraw, if_pos hX, hch]
        norm_num
      · subst hm
        show (if lookupQ ud.http_monitor ss.dt_id > 0 then
          lookupQ ud.http_monitor ss.dt_id / ((synChargedDGs ss).length : ℚ)
            else 0) = X / 2
        rw [show lookupQ ud.http_monitor ss.dt_id = X from hraw, if_pos hX, hch]
        norm_num
      · subst hm
        show (if lookupQ ud.third_party_monitor ss.dt_id > 0 then
          lookupQ ud.third_party_monitor ss.dt_id / ((synChargedDGs ss).length : ℚ)
            else 0) = X / 2
        rw [show lookupQ ud.third_party_monitor ss.dt_id = X from hraw, if_pos hX, hch]
        norm_num
    refine ⟨hplace A (by simp), hplace B (by simp), rfl, rfl, hget A (by simp),
      hget B (by simp), ?_, hbill2, hbill2⟩
    show (synEntry ud ss A).usage.get m + (synEntry ud ss B).usage.get m = X
    rw [hget A (by simp), hget B (by simp)]
    exact add_halves X

/-- Witness for C2 at a concrete FULL_STACK host tagged to `ALPHA` and
`BETA` with raw fullstack usage 100. -/
theorem C2_even_split_witness :
    (0:ℚ) < 100 ∧
    entryUnder (processResource cfgOff udC2 (Resource.host exHostC2) st0).report
      "ALPHA" EKind.hosts (resourceEntry udC2 (Resource.host exHostC2) dgAlpha) ∧
    (resourceEntry udC2 (Resource.host exHostC2) dgAlpha).usage.get UType.fullstack
      = 100 / 2 := by
  have hthm := C2_even_split cfgOff udC2 (Resource.host exHostC2) st0 dgAlpha dgBeta
    100 UType.fullstack rfl (by decide) (by decide) (by decide) (by decide)
    (Or.inl rfl) rfl (by norm_num)
    (fun n e he => absurd he not_entryUnder_st0) (by decide)
  exact ⟨by norm_num, hthm.1, hthm.2.2.2.2.1⟩

/-! ### Totals lemmas -/

theorem Usage.get_add (a b : Usage) (t : UType) :
    (Usage.add a b).get t = a.get t + b.get t := by
  cases t <;> rfl

theorem Usage.get_zero (t : UType) : Usage.zero.get t = 0 := by
  cases t <;> rfl

theorem billedSum_cons_pos {e : Entry} {es : List Entry} {t : UType}
    (hb : e.billed = true) :
    billedSum (e :: es) t = e.usage.get t + billedSum es t := by
  unfold billedSum
  rw [List.filter_cons_of_pos hb, List.map_cons, List.sum_cons]

theorem billedSum_cons_neg {e : Entry} {es : List Entry} {t : UType}
    (hb : e.billed = false) :
    billedSum (e :: es) t = billedSum es t := by
  unfold billedSum
  rw [List.filter_cons_of_neg (by simp [hb])]

theorem billedSum_append (l1 l2 : List Entry) (t : UType) :
    billedSum (l1 ++ l2) t = billedSum l1 t + billedSum l2 t := by
  unfold billedSum
  rw [List.filter_append, List.map_append, List.sum_append]

theorem addEntries_get (l : List Entry) (acc : Usage) (t : UType) :
    (addEntries l acc).get t = acc.get t + billedSum l t := by
  induction l generalizing acc with
  | nil =>
    unfold addEntries billedSum
    simp
  | cons e es ih =>
    unfold addEntries at ih ⊢
    rw [List.foldl_cons]
    cases hb : e.billed with
    | true =>
      rw [if_pos rfl, ih, Usage.get_add, billedSum_cons_pos hb]
      ring
    | false =>
      rw [if_neg (by simp), ih, billedSum_cons_neg hb]

theorem calcISUsage_get (isn : ISNode) (t : UType) :
    (calcISUsage isn).get t =
      billedSum (isn.hosts ++ isn.applications ++ isn.synthetics) t := by
  unfold calcISUsage
  rw [addEntries_get, addEntries_get, addEntries_get, Usage.get_zero,
    billedSum_append, billedSum_append]
  ring

theorem countManaged_go (l : List Entry) (n : Nat) :
    l.foldl (fun c e => if e.managed then c + 1 else c) n =
      n + (l.filter (fun e => e.managed)).length := by
  induction l generalizing n with
  | nil => simp
  | cons e es ih =>
    rw [List.foldl_cons]
    cases hm : e.managed with
    | true =>
      rw [if_pos rfl, ih]
      simp only [List.filter_cons, hm, if_true, List.length_cons]
      omega
    | false =>
      rw [if_neg (by simp), ih]
      simp only [List.filter_cons, hm, Bool.false_eq_true, if_false]

theorem countManaged_eq (l : List Entry) :
    countManaged l = (l.filter (fun e => e.managed)).length := by
  unfold countManaged
  rw [countManaged_go]
  omega

theorem foldl_isStep_hosts (l : List ISNode) (acc : Totals) :
    (l.foldl isTotalsStep acc).hosts = acc.hosts + (l.map (fun i => i.hosts.length)).sum := by
  induction l generalizing acc with
  | nil => simp
  | cons i t ih =>
    rw [List.foldl_cons, ih]
    show (isTotalsStep acc i).hosts + _ = _
    unfold isTotalsStep
    simp
    omega

theorem foldl_isStep_applications (l : List ISNode) (acc : Totals) :
    (l.foldl isTotalsStep acc).applications =
      acc.applications + (l.map (fun i => i.applications.length)).sum := by
  induction l generalizing acc with
  | nil => simp
  | cons i t ih =>
    rw [List.foldl_cons, ih]
    show (isTotalsStep acc i).applications + _ = _
    unfold isTotalsStep
    simp
    omega

theorem foldl_isStep_synthetics (l : List ISNode) (acc : Totals) :
    (l.foldl isTotalsStep acc).synthetics =
      acc.synthetics + (l.map (fun i => i.synthetics.length)).sum := by
  induction l generalizing acc with
  | nil => simp
  | cons i t ih =>
    rw [List.foldl_cons, ih]
    show (isTotalsStep acc i).synthetics + _ = _
    unfold isTotalsStep
    simp
    omega

theorem foldl_isStep_managed (l : List ISNode) (acc : Totals) :
    (l.foldl isTotalsStep acc).managed_hosts =
      acc.managed_hosts +
        (l.map (fun i => (i.hosts.filter (fun e => e.managed)).length)).sum := by
  induction l generalizing acc with
  | nil => simp
  | cons i t ih =>
    rw [List.foldl_cons, ih]
    show (isTotalsStep acc i).managed_hosts + _ = _
    unfold isTotalsStep
    simp [countManaged_eq]
    omega

theorem foldl_isStep_usage_get (l : List ISNode) (acc : Totals) (t : UType) :
    (l.foldl isTotalsStep acc).usage.get t =
      acc.usage.get t + (l.map (fun i => (calcISUsage i).get t)).sum := by
  induction l generalizing acc with
  | nil => simp
  | cons i tl ih =>
    rw [List.foldl_cons, ih]
    show (isTotalsStep acc i).usage.get t + _ = _
    unfold isTotalsStep
    simp only [Usage.get_add, List.map_cons, List.sum_cons]
    ring

theorem calcDGNode_iss (d : DGNode) : (calcDGNode d).information_systems =
    d.information_systems.map (fun isn => { isn with usage := calcISUsage isn }) := rfl

theorem calcDGNode_totals_hosts (d : DGNode) : (calcDGNode d).totals.hosts =
    (d.information_systems.foldl isTotalsStep Totals.zero).hosts + d.ua_hosts.length := rfl

theorem calcDGNode_totals_applications (d : DGNode) : (calcDGNode d).totals.applications =
    (d.information_systems.foldl isTotalsStep Totals.zero).applications +
      d.ua_applications.length := rfl

theorem calcDGNode_totals_synthetics (d : DGNode) : (calcDGNode d).totals.synthetics =
    (d.information_systems.foldl isTotalsStep Totals.zero).synthetics +
      d.ua_synthetics.length := rfl

theorem calcDGNode_totals_managed (d : DGNode) : (calcDGNode d).totals.managed_hosts =
    (d.information_systems.foldl isTotalsStep Totals.zero).managed_hosts +
      countManaged d.ua_hosts := rfl

theorem calcDGNode_totals_usage (d : DGNode) : (calcDGNode d).totals.usage =
    addEntries d.ua_synthetics (addEntries d.ua_applications (addEntries d.ua_hosts
      (d.information_systems.foldl isTotalsStep Totals.zero).usage)) := rfl

/-- C9: sub-group usage totals sum exactly the billed entries per metric,
the per-kind entity counts of the DG totals count every entry regardless of
the billed flag, and the managed-host count counts the host entries flagged
managed (again regardless of billed). -/
theorem C9_subgroup_aggregation (d : DGNode) (t : UType) :
    (∀ isn ∈ (calcDGNode d).information_systems,
      isn.usage.get t = billedSum (isn.hosts ++ isn.applications ++ isn.synthetics) t) ∧
    (calcDGNode d).totals.hosts =
      (d.information_systems.map (fun i => i.hosts.length)).sum + d.ua_hosts.length ∧
    (calcDGNode d).totals.applications =
      (d.information_systems.map (fun i => i.applications.length)).sum +
        d.ua_applications.length ∧
    (calcDGNode d).totals.synthetics =
      (d.information_systems.map (fun i => i.synthetics.length)).sum +
        d.ua_synthetics.length ∧
    (calcDGNode d).totals.managed_hosts =
      (d.information_systems.map
        (fun i => (i.hosts.filter (fun e => e.managed)).length)).sum +
        (d.ua_hosts.filter (fun e => e.managed)).length := by
  refine ⟨?_, ?_, ?_, ?_, ?_⟩
  · intro isn hisn
    rw [calcDGNode_iss] at hisn
    obtain ⟨i0, hi0, heq⟩ := List.mem_map.mp hisn
    rw [← heq]
    show (calcISUsage i0).get t = billedSum (i0.hosts ++ i0.applications ++ i0.synthetics) t
    exact calcISUsage_get i0 t
  · rw [calcDGNode_totals_hosts, foldl_isStep_hosts]
    show Totals.zero.hosts + _ + _ = _
    simp [Totals.zero]
  · rw [calcDGNode_totals_applications, foldl_isStep_applications]
    show Totals.zero.applications + _ + _ = _
    simp [Totals.zero]
  · rw [calcDGNode_totals_synthetics, foldl_isStep_synthetics]
    show Totals.zero.synthetics + _ + _ = _
    simp [Totals.zero]
  · rw [calcDGNode_totals_managed, foldl_isStep_managed, countManaged_eq]
    show Totals.zero.managed_hosts + _ + _ = _
    simp [Totals.zero]

/-- Witness for C9 at a concrete DG node with one IS (a billed application
entry and an unbilled host entry) and one unassigned host entry. -/
theorem C9_subgroup_aggregation_witness :
    (calcDGNode dgNodeEx).totals.hosts = 2 ∧
    (calcDGNode dgNodeEx).totals.managed_hosts = 2 ∧
    ({ isNodeEx with usage := calcISUsage isNodeEx } : ISNode).usage.get UType.rum =
      billedSum (isNodeEx.hosts ++ isNodeEx.applications ++ isNodeEx.synthetics)
        UType.rum := by
  have hthm := C9_subgroup_aggregation dgNodeEx UType.rum
  refine ⟨?_, ?_, ?_⟩
  · rw [hthm.2.1]
    decide
  · rw [hthm.2.2.2.2]
    decide
  · have hmem : ({ isNodeEx with usage := calcISUsage isNodeEx } : ISNode) ∈
        (calcDGNode dgNodeEx).information_systems := by
      rw [calcDGNode_iss]
      show _ ∈ [({ isNodeEx with usage := calcISUsage isNodeEx } : ISNode)]
      exact List.mem_singleton_self _
    exact hthm.1 _ hmem

theorem routeTotals_split (dgs : List DGNode) (acc : Totals × Totals) :
    routeTotals dgs acc =
      ((dgs.filter fun dnode => !(dnode.name == "Unassigned")).foldl
          (fun a dnode => Totals.add a dnode.totals) acc.1,
        (dgs.filter fun dnode => dnode.name == "Unassigned").foldl
          (fun a dnode => Totals.add a dnode.totals) acc.2) := by
  induction dgs generalizing acc with
  | nil => rfl
  | cons dnode tl ih =>
    unfold routeTotals at ih ⊢
    rw [List.foldl_cons]
    cases hn : dnode.name == "Unassigned" with
    | true =>
      rw [if_pos rfl]
      rw [ih]
      simp only [List.filter_cons, hn, if_true, Bool.not_true, Bool.false_eq_true,
        if_false, List.foldl_cons]
    | false =>
      rw [if_neg (by simp)]
      rw [ih]
      simp only [List.filter_cons, hn, Bool.false_eq_true, if_false, Bool.not_false,
        if_true, List.foldl_cons]

theorem foldl_addTotals_usage_get (l : List DGNode) (acc : Totals) (t : UType) :
    (l.foldl (fun a dnode => Totals.add a dnode.totals) acc).usage.get t =
      acc.usage.get t + (l.map (fun dnode => dnode.totals.usage.get t)).sum := by
  induction l generalizing acc with
  | nil => simp
  | cons dnode tl ih =>
    rw [List.foldl_cons, ih]
    show (Totals.add acc dnode.totals).usage.get t + _ = _
    unfold Totals.add
    simp only [Usage.get_add, List.map_cons, List.sum_cons]
    ring

theorem calculate_totals_dgs (r : Report) :
    (calculate_totals r).dgs = r.dgs.map calcDGNode := rfl

theorem calculate_totals_main (r : Report) : (calculate_totals r).totals =
    (routeTotals (r.dgs.map calcDGNode) (Totals.zero, Totals.zero)).1 := rfl

theorem calculate_totals_una (r : Report) : (calculate_totals r).unassigned_totals =
    (routeTotals (r.dgs.map calcDGNode) (Totals.zero, Totals.zero)).2 := rfl

/-- C3: after `_calculate_totals`, every DG node's usage totals equal the
sum of its IS nodes' stored usage plus the billed usage of its own
unassigned buckets; the main report totals (usage per metric, entity counts
and managed-host count alike) are the sum of the totals of all DG nodes not
named `Unassigned`, and the totals of the DG nodes named `Unassigned` are
accumulated into the separate `unassigned_totals` record instead. -/
theorem C3_totals_consistency (r : Report) (t : UType) :
    (∀ d ∈ (calculate_totals r).dgs,
      d.totals.usage.get t =
        (d.information_systems.map (fun i => i.usage.get t)).sum +
          billedSum (d.ua_hosts ++ d.ua_applications ++ d.ua_synthetics) t) ∧
    (calculate_totals r).totals.usage.get t =
      (((calculate_totals r).dgs.filter fun d => !(d.name == "Unassigned")).map
        (fun d => d.totals.usage.get t)).sum ∧
    (calculate_totals r).unassigned_totals.usage.get t =
      (((calculate_totals r).dgs.filter fun d => d.name == "Unassigned").map
        (fun d => d.totals.usage.get t)).sum ∧
    (calculate_totals r).totals =
      (((calculate_totals r).dgs.filter fun d => !(d.name == "Unassigned")).map
        (fun d => d.totals)).foldl Totals.add Totals.zero ∧
    (calculate_totals r).unassigned_totals =
      (((calculate_totals r).dgs.filter fun d => d.name == "Unassigned").map
        (fun d => d.totals)).foldl Totals.add Totals.zero := by
  refine ⟨?_, ?_, ?_, ?_, ?_⟩
  · intro dnode hd
    rw [calculate_totals_dgs] at hd
    obtain ⟨d0, hd0, heq⟩ := List.mem_map.mp hd
    rw [← heq]
    rw [calcDGNode_totals_usage, addEntries_get, addEntries_get, addEntries_get,
      foldl_isStep_usage_get]
    rw [show (calcDGNode d0).information_systems.map (fun i => i.usage.get t) =
      d0.information_systems.map (fun i => (calcISUsage i).get t) from by
        rw [calcDGNode_iss, List.map_map]; rfl]
    rw [show ((calcDGNode d0).ua_hosts ++ (calcDGNode d0).ua_applications ++
      (calcDGNode d0).ua_synthetics) =
        d0.ua_hosts ++ d0.ua_applications ++ d0.ua_synthetics from rfl]
    rw [billedSum_append, billedSum_append]
    show Totals.zero.usage.get t + _ + _ + _ + _ = _
    simp only [Totals.zero, Usage.get_zero]
    ring
  · rw [calculate_totals_main, routeTotals_split, calculate_totals_dgs]
    show (((r.dgs.map calcDGNode).filter fun dnode => !(dnode.name == "Unassigned")).foldl
      (fun a dnode => Totals.add a dnode.totals) Totals.zero).usage.get t = _
    rw [foldl_addTotals_usage_get]
    show Totals.zero.usage.get t + _ = _
    simp only [Totals.zero, Usage.get_zero]
    ring
  · rw [calculate_totals_una, routeTotals_split, calculate_totals_dgs]
    show (((r.dgs.map calcDGNode).filter fun dnode => dnode.name == "Unassigned").foldl
      (fun a dnode => Totals.add a dnode.totals) Totals.zero).usage.get t = _
    rw [foldl_addTotals_usage_get]
    show Totals.zero.usage.get t + _ = _
    simp only [Totals.zero, Usage.get_zero]
    ring
  · rw [calculate_totals_main, routeTotals_split, calculate_totals_dgs]
    rw [List.foldl_map]
  · rw [calculate_totals_una, routeTotals_split, calculate_totals_dgs]
    rw [List.foldl_map]

/-- Witness for C3 at a concrete one-DG report. -/
theorem C3_totals_consistency_witness :
    calcDGNode dgNodeEx ∈ (calculate_totals rEx).dgs ∧
    (calcDGNode dgNodeEx).totals.usage.get UType.rum =
      ((calcDGNode dgNodeEx).information_systems.map
        (fun i => i.usage.get UType.rum)).sum +
        billedSum ((calcDGNode dgNodeEx).ua_hosts ++
          (calcDGNode dgNodeEx).ua_applications ++
          (calcDGNode dgNodeEx).ua_synthetics) UType.rum := by
  have hmem : calcDGNode dgNodeEx ∈ (calculate_totals rEx).dgs := by
    rw [calculate_totals_dgs]
    show calcDGNode dgNodeEx ∈ [calcDGNode dgNodeEx]
    exact List.mem_singleton_self _
  exact ⟨hmem, (C3_totals_consistency rEx UType.rum).1 _ hmem⟩

end Chargeback
